import Mathlib

/-!
Verification of the ml_translator pipeline (C++ to python / java / javascript /
assembly translation service).

Strings are modelled as lists of characters (`Str`).  The Python string
operations used by the code (`strip`, `lower`, `split`, `in`, `startswith`,
`endswith`, `count`) are reimplemented below for the ASCII character ranges the
pipeline works with.  Regular-expression rewrites (`re.sub`, `re.search`) are
embedded as hand-rolled scanners that reproduce the exact leftmost,
non-overlapping match semantics of the patterns used by the source, each one
specialised to its concrete pattern.  Floating point confidences are modelled
as rationals: every confidence the code manipulates is a small multiple of
1/10 clamped into [0,1], where double arithmetic and rational arithmetic give
the same order relations for all compared quantities.
-/

namespace MLT

abbrev Str := List Char

/-- Whitespace characters recognised by the Python `str.strip` / `\s` class
(ASCII range). -/
def isPySpace (c : Char) : Bool :=
  c = ' ' || c = '\t' || c = '\n' || c = '\r' || c = '\x0b' || c = '\x0c'

/-- Word characters of the regex class `\w` (ASCII range). -/
def isWordChar (c : Char) : Bool :=
  c.isAlpha || c.isDigit || c = '_'

def pyLStrip (s : Str) : Str := s.dropWhile isPySpace

def pyRStrip (s : Str) : Str := (s.reverse.dropWhile isPySpace).reverse

/-- Python `str.strip()`. -/
def pyStrip (s : Str) : Str := pyRStrip (pyLStrip s)

/-- Python `str.lower()` (ASCII). -/
def pyLower (s : Str) : Str := s.map Char.toLower

/-- Python `str.upper()` (ASCII). -/
def pyUpper (s : Str) : Str := s.map Char.toUpper

/-- Python `s.startswith(p)`. -/
def startsWith : Str → Str → Bool
  | _, [] => true
  | [], _ :: _ => false
  | c :: s, p :: ps => c = p && startsWith s ps

/-- Python `s.endswith(p)`. -/
def pyEndsWith (s p : Str) : Bool := startsWith s.reverse p.reverse

/-- Python substring containment `p in s`. -/
def containsSub (s p : Str) : Bool :=
  startsWith s p ||
    match s with
    | [] => false
    | _ :: t => containsSub t p

/-- Python `s.split(sep)` for a single-character separator. -/
def splitOnChar (sep : Char) : Str → List Str
  | [] => [[]]
  | c :: t =>
    let r := splitOnChar sep t
    if c = sep then [] :: r
    else
      match r with
      | [] => [[c]]
      | l :: ls => (c :: l) :: ls

/-- Python `s.split('\n')`. -/
def splitNL (s : Str) : List Str := splitOnChar '\n' s

/-- Python `sep.join(xs)` for `sep = "\n"`. -/
def joinNL : List Str → Str
  | [] => []
  | [l] => l
  | l :: ls => l ++ '\n' :: joinNL ls

/-- Worker for `pySplitWs`: `acc` is the current word, reversed. -/
def pySplitWsGo (acc : Str) : Str → List Str
  | [] => if acc.isEmpty then [] else [acc.reverse]
  | c :: t =>
    if isPySpace c then
      if acc.isEmpty then pySplitWsGo [] t else acc.reverse :: pySplitWsGo [] t
    else pySplitWsGo (c :: acc) t

/-- Python `s.split()` (split on whitespace runs, dropping empties). -/
def pySplitWs (s : Str) : List Str := pySplitWsGo [] s

/-- Python `', '.join(xs)` for an arbitrary separator. -/
def joinSep (sep : Str) : List Str → Str
  | [] => []
  | [l] => l
  | l :: ls => l ++ sep ++ joinSep sep ls

/-- Python `s.count(c)` for a single character. -/
def countChar (c : Char) (s : Str) : Nat := (s.filter (fun x => x = c)).length

/-- Python `enumerate(xs, start)`. -/
def enumFrom (n : Nat) : List α → List (Nat × α)
  | [] => []
  | x :: xs => (n, x) :: enumFrom (n + 1) xs

/-- Python `str.capitalize()`. -/
def capitalizeStr : Str → Str
  | [] => []
  | c :: t => c.toUpper :: pyLower t

/-! ### Generic `re.sub` scanner

A matcher `m` receives the current suffix of the text.  `m s = some (r, k)`
means the pattern matches at the start of `s`, consuming `k + 1` characters
which are to be replaced by `r` (every pattern below consumes at least one
character).  `applySub` reproduces the `re.sub` scan: at each position, emit
the replacement and resume after the match, otherwise copy one character. -/

def applySubGo (m : Str → Option (Str × Nat)) : Nat → Str → Str
  | 0, _ => []
  | _ + 1, [] => []
  | fuel + 1, c :: t =>
    match m (c :: t) with
    | some (r, k) => r ++ applySubGo m fuel ((c :: t).drop (k + 1))
    | none => c :: applySubGo m fuel t

def applySub (m : Str → Option (Str × Nat)) (s : Str) : Str :=
  applySubGo m s.length s

/-! Matcher building blocks. -/

/-- Consume a nonempty run of `\w` characters. -/
def takeWord1 (s : Str) : Option (Str × Str) :=
  let w := s.takeWhile isWordChar
  if w.isEmpty then none else some (w, s.drop w.length)

/-- Consume a nonempty run of `\s` characters. -/
def takeWs1 (s : Str) : Option (Str × Str) :=
  let w := s.takeWhile isPySpace
  if w.isEmpty then none else some (w, s.drop w.length)

/-- Consume a possibly empty run of `\s` characters. -/
def takeWs0 (s : Str) : Str × Str :=
  let w := s.takeWhile isPySpace
  (w, s.drop w.length)

/-- Consume one expected character. -/
def expectChar (c : Char) : Str → Option Str
  | [] => none
  | x :: t => if x = c then some t else none

/-- Consume a run of characters different from `c` (the class `[^c]*`). -/
def takeUntilChar (c : Char) (s : Str) : Str × Str :=
  let w := s.takeWhile (fun x => x ≠ c)
  (w, s.drop w.length)

/-- Consume an expected literal. -/
def expectLit (p : Str) (s : Str) : Option Str :=
  if startsWith s p then some (s.drop p.length) else none

deriving instance DecidableEq for Except

/-- First index at which `p` occurs in `s` as a substring. -/
def subIdx (s p : Str) : Option Nat :=
  if startsWith s p then some 0
  else
    match s with
    | [] => none
    | _ :: t => (subIdx t p).map (· + 1)

/-! ## Validator (`postprocessing/validator.py`)

`ValidationLevel`, `ValidationResult` and `CodeValidator.validate` with its
helper passes.  The Python `ValidationResult` stores issues in a
per-level dict; the embedding keeps one chronological list (each issue tagged
with its level), from which the per-level lists are recovered by filtering —
order within each level is identical to the Python lists.  The only external
collaborator is the Python syntax checker `ast.parse`, modelled as an oracle
argument `po` returning `none` on success and `some (message, lineno)` for a
syntax error. -/

inductive Level
  | error
  | warning
  | info
deriving DecidableEq, Repr

structure Issue where
  level : Level
  message : Str
  line : Option Nat
deriving DecidableEq, Repr

/-- `ValidationResult.__init__`. -/
structure VResult where
  is_valid : Bool
  issues : List Issue
  suggestions : List Str
  confidence : ℚ
deriving DecidableEq, Repr

def VResult.init : VResult :=
  { is_valid := true, issues := [], suggestions := [], confidence := 1 }

/-- `ValidationResult.add_issue`. -/
def addIssue (r : VResult) (lv : Level) (msg : Str) (line : Option Nat) : VResult :=
  let r' := { r with issues := r.issues ++ [⟨lv, msg, line⟩] }
  match lv with
  | .error => { r' with is_valid := false, confidence := max 0 (r.confidence - 1/5) }
  | .warning => { r' with confidence := max 0 (r.confidence - 1/10) }
  | .info => r'

/-- `ValidationResult.add_suggestion`. -/
def addSuggestion (r : VResult) (s : Str) : VResult :=
  { r with suggestions := r.suggestions ++ [s] }

def errorsOf (r : VResult) : List Issue := r.issues.filter (fun i => i.level = Level.error)

def warningsOf (r : VResult) : List Issue := r.issues.filter (fun i => i.level = Level.warning)

def infosOf (r : VResult) : List Issue := r.issues.filter (fun i => i.level = Level.info)

/-- Syntax-error oracle for the external `ast.parse` collaborator:
`none` = parses, `some (msg, lineno)` = `SyntaxError`. -/
abbrev PyParseOracle := Str → Option (Str × Option Nat)

/-- Artifact phrases of `_validate_basic_structure` (all the regex patterns are
plain literals, so `re.search` is substring containment). -/
def artifactPats : List Str :=
  [("here is the").data, ("the following").data, ("as you can see").data,
   ("note that").data, ("please note").data, ("translation:").data,
   ("generated code:").data]

/-- `CodeValidator._validate_basic_structure`.  The code-fence pattern
`` ```\w* `` matches exactly when the text contains three backquotes, since
`\w*` may be empty. -/
def validateBasicStructure (code : Str) (r : VResult) : VResult :=
  let lines := splitNL code
  let nonEmpty := lines.filter (fun l => !(pyStrip l).isEmpty)
  if nonEmpty.isEmpty then
    addIssue r .error ("Code contains no meaningful content").data none
  else
    let r := (enumFrom 1 lines).foldl
      (fun r il =>
        let lineLower := pyLower il.2
        artifactPats.foldl
          (fun r pat =>
            if containsSub lineLower pat then
              addIssue r .warning ("Possible ML artifact detected").data (some il.1)
            else r)
          r)
      r
    if containsSub code ("```").data then
      addIssue r .warning ("Code contains markdown formatting markers").data none
    else r

/-- `CodeValidator._validate_python` (syntax check delegated to the oracle). -/
def validatePython (code : Str) (po : PyParseOracle) (r : VResult) : VResult :=
  let r :=
    match po code with
    | some (msg, ln) => addIssue r .error (("Python syntax error: ").data ++ msg) ln
    | none => r
  (enumFrom 1 (splitNL code)).foldl
    (fun r il =>
      let line := il.2
      let st := pyStrip line
      let r :=
        if pyEndsWith st (";").data && !pyEndsWith st ("';").data then
          addIssue r .info ("Unnecessary semicolon detected").data (some il.1)
        else r
      let r :=
        if line.contains '{' || line.contains '}' then
          addIssue r .warning ("Braces detected in Python code").data (some il.1)
        else r
      if startsWith line (" ").data && !startsWith line ("    ").data &&
          !startsWith line ("        ").data && !(pyStrip line).isEmpty then
        addIssue r .warning ("Inconsistent indentation (should be 4 spaces)").data (some il.1)
      else r)
    r

/-- Regex `\w+\s*=`. -/
def hasAssignPat : Str → Bool
  | [] => false
  | c :: t =>
    (isWordChar c && (match (pyLStrip t) with
      | '=' :: _ => true
      | _ => false)) || hasAssignPat t

/-- Regex `\w+\(.*\)` (where `.` does not match a newline). -/
def hasCallPat : Str → Bool
  | [] => false
  | c :: t =>
    (isWordChar c &&
      (match t with
       | '(' :: u => (u.takeWhile (fun x => x ≠ '\n')).contains ')'
       | _ => false)) || hasCallPat t

/-- Regex `return\s+`. -/
def hasReturnPat : Str → Bool
  | [] => false
  | c :: t =>
    (match expectLit (("return").data) (c :: t) with
     | some rest => (match rest with | x :: _ => isPySpace x | [] => false)
     | none => false) || hasReturnPat t

/-- Regex `w\b` for a literal word `w` ending in a word character. -/
def hasWordBreakPat (w : Str) : Str → Bool
  | [] => false
  | c :: t =>
    (startsWith (c :: t) w &&
      (match (c :: t).drop w.length with
       | [] => true
       | x :: _ => !isWordChar x)) || hasWordBreakPat w t

/-- Keyword list of the missing-semicolon heuristic. -/
def cLikeKeywords : List Str :=
  [("if").data, ("for").data, ("while").data, ("switch").data, ("else").data,
   ("do").data, ("try").data, ("catch").data, ("finally").data]

/-- `CodeValidator._validate_c_like`. -/
def validateCLike (code : Str) (r : VResult) : VResult :=
  let lines := splitNL code
  let folded := (enumFrom 1 lines).foldl
    (fun (acc : Int × Int × VResult) il =>
      let line := il.2
      let braceCount := acc.1 + (countChar '{' line : Int) - (countChar '}' line : Int)
      let parenCount := acc.2.1 + (countChar '(' line : Int) - (countChar ')' line : Int)
      let st := pyStrip line
      let r := acc.2.2
      let r :=
        if !st.isEmpty && !startsWith st ("//").data && !startsWith st ("/*").data &&
            !pyEndsWith st ("\x7b").data && !pyEndsWith st ("\x7d").data &&
            !pyEndsWith st (":").data &&
            !(cLikeKeywords.any (fun kw => containsSub st kw)) &&
            !pyEndsWith st (";").data then
          if hasAssignPat st || hasCallPat st || hasReturnPat st ||
              hasWordBreakPat (("break").data) st ||
              hasWordBreakPat (("continue").data) st then
            addIssue r .warning ("Possible missing semicolon").data (some il.1)
          else r
        else r
      (braceCount, parenCount, r))
    (0, 0, r)
  let r := folded.2.2
  let r :=
    if folded.1 ≠ 0 then
      addIssue r .error (("Unmatched braces: ").data ++ (toString folded.1).data) none
    else r
  if folded.2.1 ≠ 0 then
    addIssue r .warning (("Unmatched parentheses: ").data ++ (toString folded.2.1).data) none
  else r

/-- Mnemonic whitelist of `_validate_assembly`. -/
def validInstructions : List Str :=
  [("mov").data, ("add").data, ("sub").data, ("mul").data, ("div").data,
   ("jmp").data, ("call").data, ("push").data, ("pop").data, ("ret").data,
   ("cmp").data, ("test").data, ("je").data, ("jne").data, ("jg").data,
   ("jl").data, ("jge").data, ("jle").data, ("inc").data, ("dec").data,
   ("and").data, ("or").data, ("xor").data, ("not").data, ("shl").data,
   ("shr").data, ("nop").data, ("int").data, ("hlt").data]

/-- `CodeValidator._validate_assembly`. -/
def validateAssembly (code : Str) (r : VResult) : VResult :=
  (enumFrom 1 (splitNL code)).foldl
    (fun r il =>
      let stripped := pyLower (pyStrip il.2)
      if stripped.isEmpty || startsWith stripped (";").data then r
      else
        match pySplitWs stripped with
        | [] => r
        | instruction :: _ =>
          if pyEndsWith instruction (":").data then r
          else if !(validInstructions.contains instruction) then
            addIssue r .warning (("Unknown assembly instruction: ").data ++ instruction)
              (some il.1)
          else r)
    r

/-- Optional source-structure info handed to `_validate_consistency`: the
function and class name lists, each present only when the corresponding key is
in the `source_info` dict. -/
structure SourceInfo where
  functions : Option (List Str)
  classes : Option (List Str)

/-- `CodeValidator._validate_consistency`. -/
def validateConsistency (code : Str) (si : SourceInfo) (r : VResult) : VResult :=
  let r :=
    match si.functions with
    | some fns =>
      fns.foldl
        (fun r fn =>
          if !containsSub code fn then
            addIssue r .warning
              ((("Function '").data ++ fn) ++ ("' from source not found in translation").data)
              none
          else r)
        r
    | none => r
  match si.classes with
  | some cls =>
    cls.foldl
      (fun r cn =>
        if !containsSub code cn then
          addIssue r .warning
            ((("Class '").data ++ cn) ++ ("' from source not found in translation").data)
            none
        else r)
      r
  | none => r

/-- Message of the short-output info issue. -/
def shortMsg : Str := ("Very short translation - may be incomplete").data

/-- Message of the repetition warning. -/
def repMsg : Str := ("High code repetition detected").data

/-- Regex `^\s*(#|//|/\*)`. -/
def isCommentLine (line : Str) : Bool :=
  let t := pyLStrip line
  startsWith t ("#").data || startsWith t ("//").data || startsWith t ("/*").data

/-- Regex `range\s*\(\s*len\s*\(`. -/
def hasRangeLenPat : Str → Bool
  | [] => false
  | c :: t =>
    (match expectLit (("range").data) (c :: t) with
     | some rest =>
       (match expectChar '(' (pyLStrip rest) with
        | some rest2 =>
          (match expectLit (("len").data) (pyLStrip rest2) with
           | some rest3 =>
             (match expectChar '(' (pyLStrip rest3) with
              | some _ => true
              | none => false)
           | none => false)
        | none => false)
     | none => false) || hasRangeLenPat t

/-- Regex `for\s+\w+\s+in\s+range\s*\(`. -/
def hasForRangePat : Str → Bool
  | [] => false
  | c :: t =>
    (match expectLit (("for").data) (c :: t) with
     | some r1 =>
       (match takeWs1 r1 with
        | some (_, r2) =>
          (match takeWord1 r2 with
           | some (_, r3) =>
             (match takeWs1 r3 with
              | some (_, r4) =>
                (match expectLit (("in").data) r4 with
                 | some r5 =>
                   (match takeWs1 r5 with
                    | some (_, r6) =>
                      (match expectLit (("range").data) r6 with
                       | some r7 =>
                         (match expectChar '(' (pyLStrip r7) with
                          | some _ => true
                          | none => false)
                       | none => false)
                    | none => false)
                 | none => false)
              | none => false)
           | none => false)
        | none => false)
     | none => false) || hasForRangePat t

/-- `CodeValidator._assess_python_quality` (suggestions only). -/
def assessPythonQuality (code : Str) (r : VResult) : VResult :=
  let r :=
    if hasRangeLenPat code then
      addSuggestion r ("Consider using enumerate() instead of range(len())").data
    else r
  if hasForRangePat code && !containsSub code ("while").data then
    addSuggestion r ("Consider if a more Pythonic iteration method is available").data
  else r

/-- `CodeValidator._assess_quality`.  The float comparison
`len(set(x)) < len(x) * 0.7` is embedded in the equivalent integer form
`10 * len(set(x)) < 7 * len(x)`; for all list lengths arising here the double
comparison and the exact rational comparison agree. -/
def assessQuality (code lang : Str) (r : VResult) : VResult :=
  let lines := splitNL code
  let nonEmpty := lines.filter (fun l => !(pyStrip l).isEmpty)
  let r :=
    if nonEmpty.length = 1 && lines.headI.length < 50 then
      let r := addIssue r .info shortMsg none
      { r with confidence := max (1/2) (r.confidence - 1/10) }
    else r
  let commentLines := (lines.filter (fun l => isCommentLine l)).length
  let r :=
    if commentLines = 0 && nonEmpty.length > 10 then
      addSuggestion r ("Consider adding comments to explain the translation").data
    else r
  let r :=
    if 10 * nonEmpty.dedup.length < 7 * nonEmpty.length then
      let r := addIssue r .warning repMsg none
      { r with confidence := max (7/10) (r.confidence - 1/10) }
    else r
  if pyLower lang = ("python").data then assessPythonQuality code r else r

/-- `CodeValidator.validate` (result returned before the `to_dict`
serialisation). -/
def validate (code lang : Str) (si : Option SourceInfo) (po : PyParseOracle) : VResult :=
  let r := VResult.init
  if code.isEmpty || (pyStrip code).isEmpty then
    addIssue r .error ("Generated code is empty").data none
  else
    let r := validateBasicStructure code r
    let r :=
      if pyLower lang = ("python").data then validatePython code po r
      else if pyLower lang = ("java").data || pyLower lang = ("javascript").data then
        validateCLike code r
      else if pyLower lang = ("assembly").data then validateAssembly code r
      else r
    let r :=
      match si with
      | some s => validateConsistency code s r
      | none => r
    assessQuality code lang r

/-! ## CodeGen model (`models/codegen_model.py`)

The generative engine itself (tokenizer, torch model) is an external
collaborator; its decoded output text is taken as an input.  Everything after
decoding — `_extract_translation`, `_clean_translated_code`,
`_extract_code_like_content`, `_contains_obvious_artifacts`, the trust gate of
`_ml_translate` and the four `_cpp_to_*_fallback` translators — is embedded
below. -/

/-- Matcher for `ty\s+(\w+)\s*=\s*(B+);` where `B` is a character class,
replaced by `\1 = \2` (the `int`, `float` and `double` rules of
`_cpp_to_python_fallback`). -/
def declM (ty : Str) (body : Char → Bool) (s : Str) : Option (Str × Nat) := do
  let s1 ← expectLit ty s
  let (_, s2) ← takeWs1 s1
  let (name, s3) ← takeWord1 s2
  let s4 := (takeWs0 s3).2
  let s5 ← expectChar '=' s4
  let s6 := (takeWs0 s5).2
  let v := s6.takeWhile body
  if v.isEmpty then none
  else do
    let s8 ← expectChar ';' (s6.drop v.length)
    pure (name ++ (" = ").data ++ v, s.length - s8.length - 1)

/-- Matcher for `char\s+(\w+)\s*=\s*\'([^\']*)\';` replaced by `\1 = "\2"`. -/
def charDeclM (s : Str) : Option (Str × Nat) := do
  let s1 ← expectLit (("char").data) s
  let (_, s2) ← takeWs1 s1
  let (name, s3) ← takeWord1 s2
  let s4 := (takeWs0 s3).2
  let s5 ← expectChar '=' s4
  let s6 := (takeWs0 s5).2
  let s7 ← expectChar '\'' s6
  let (v, s8) := takeUntilChar '\'' s7
  let s9 ← expectChar '\'' s8
  let s10 ← expectChar ';' s9
  pure (name ++ (" = \"").data ++ v ++ ("\"").data, s.length - s10.length - 1)

/-- Matcher for `bool\s+(\w+)\s*=\s*(true|false);` replaced by `\1 = \2`. -/
def boolDeclM (s : Str) : Option (Str × Nat) := do
  let s1 ← expectLit (("bool").data) s
  let (_, s2) ← takeWs1 s1
  let (name, s3) ← takeWord1 s2
  let s4 := (takeWs0 s3).2
  let s5 ← expectChar '=' s4
  let s6 := (takeWs0 s5).2
  let (v, s7) ←
    match expectLit (("true").data) s6 with
    | some r => some ((("true").data : Str), r)
    | none =>
      match expectLit (("false").data) s6 with
      | some r => some ((("false").data : Str), r)
      | none => none
  let s8 ← expectChar ';' s7
  pure (name ++ (" = ").data ++ v, s.length - s8.length - 1)

/-- Matcher for `cout\s*<<\s*(.*?);` (lazy capture, `.` excludes newlines),
with a configurable replacement for the captured group. -/
def coutM (mk : Str → Str) (s : Str) : Option (Str × Nat) := do
  let s1 ← expectLit (("cout").data) s
  let s2 := (takeWs0 s1).2
  let s3 ← expectLit (("<<").data) s2
  let s4 := (takeWs0 s3).2
  let g := s4.takeWhile (fun c => c ≠ ';' && c ≠ '\n')
  let s5 ← expectChar ';' (s4.drop g.length)
  pure (mk g, s.length - s5.length - 1)

/-- Matcher for `cin\s*>>\s*(\w+);` with a configurable replacement. -/
def cinM (mk : Str → Str) (s : Str) : Option (Str × Nat) := do
  let s1 ← expectLit (("cin").data) s
  let s2 := (takeWs0 s1).2
  let s3 ← expectLit ((">>").data) s2
  let s4 := (takeWs0 s3).2
  let (name, s5) ← takeWord1 s4
  let s6 ← expectChar ';' s5
  pure (mk name, s.length - s6.length - 1)

/-- `CodeGenModel._cpp_to_python_fallback`.  Note: exactly as in the source,
the first five substitutions are all applied to `cpp_code` rather than to the
accumulated `code`, so only the `bool` rule feeds the later steps; the
remaining rules then run on `code`. -/
def cppToPythonFallback (cpp_code : Str) : Str :=
  let code := applySub (declM (("int").data) (fun c => c.isDigit)) cpp_code
  let code := applySub (declM (("float").data) (fun c => c.isDigit || c = '.')) cpp_code
  let code := applySub (declM (("double").data) (fun c => c.isDigit || c = '.')) cpp_code
  let code := applySub charDeclM cpp_code
  let code := applySub boolDeclM cpp_code
  let code := applySub (coutM (fun g => ("print(").data ++ g ++ (")").data)) code
  let code := applySub (cinM (fun w =>
    w ++ (" = input(\"Enter ").data ++ w ++ (": \")").data)) code
  let code := code.filter (fun c => c ≠ ';')
  ("# Fallback translation (limited functionality)\n").data ++ code

/-- Matcher for `int\s+(\w+);` replaced by `int \1;`
(`_cpp_to_java_fallback`). -/
def javaIntM (s : Str) : Option (Str × Nat) := do
  let s1 ← expectLit (("int").data) s
  let (_, s2) ← takeWs1 s1
  let (name, s3) ← takeWord1 s2
  let s4 ← expectChar ';' s3
  pure ((("int ").data) ++ name ++ ((";").data), s.length - s4.length - 1)

/-- `CodeGenModel._cpp_to_java_fallback`. -/
def cppToJavaFallback (src_code : Str) : Str :=
  let lines := splitNL (pyStrip src_code)
  let methodLines := lines.filterMap (fun line =>
    if containsSub line (("int main()").data) || containsSub line (("void main()").data) then
      some (("    public static void main(String[] args) \x7b").data)
    else if pyStrip line = (("return 0;").data) then none
    else some ((("    ").data) ++ line))
  let methodCode := joinNL methodLines
  let methodCode := applySub javaIntM methodCode
  ("public class TranslatedProgram \x7b\n").data ++ methodCode ++ ("\n\x7d").data

/-- Matcher for `ty\s+(const\s+)?(\w+)` replaced by `let \2`
(`_cpp_to_javascript_fallback`); the optional `const` branch is tried first
and the engine backtracks to the plain `\w+` branch when it fails. -/
def jsLetM (ty : Str) (s : Str) : Option (Str × Nat) := do
  let s1 ← expectLit ty s
  let (_, s2) ← takeWs1 s1
  let viaConst : Option (Str × Str) := do
    let c1 ← expectLit (("const").data) s2
    let (_, c2) ← takeWs1 c1
    takeWord1 c2
  let (name, s3) ←
    match viaConst with
    | some r => some r
    | none => takeWord1 s2
  pure ((("let ").data) ++ name, s.length - s3.length - 1)

/-- `CodeGenModel._cpp_to_javascript_fallback`. -/
def cppToJavascriptFallback (src_code : Str) : Str :=
  let code := src_code
  let code := applySub (jsLetM (("int").data)) code
  let code := applySub (jsLetM (("float").data)) code
  let code := applySub (jsLetM (("double").data)) code
  let code := applySub (coutM (fun g => ("console.log(").data ++ g ++ (");").data)) code
  let code := applySub (cinM (fun w => w ++ (" = prompt(\"Enter value:\");").data)) code
  ("// Fallback JavaScript translation\n").data ++ code

/-- `CodeGenModel._cpp_to_assembly_fallback`. -/
def cppToAssemblyFallback (src_code : Str) : Str :=
  ("; Fallback assembly translation\n; Limited C++ to assembly conversion\n; Original C++ code:\n; ").data
    ++ src_code
    ++ ("\nsection .text\n    global _start\n_start:\n    ; Minimal assembly stub\n    mov eax, 1      ; sys_exit\n    mov ebx, 0      ; exit code 0\n    int 0x80").data

/-- `CodeGenModel.get_supported_languages`. -/
def supportedLanguages : List Str :=
  [("python").data, ("java").data, ("javascript").data, ("assembly").data]

/-- `CodeGenModel._fallback_translate` (text part; the `set_confidence(0.6)`
call is covered by `setConfidence`).  The final `else` raises `ValueError`. -/
def fallbackTranslate (source_code target_language : Str) : Except Str Str :=
  if target_language = ("python").data then .ok (cppToPythonFallback source_code)
  else if target_language = ("java").data then .ok (cppToJavaFallback source_code)
  else if target_language = ("javascript").data then .ok (cppToJavascriptFallback source_code)
  else if target_language = ("assembly").data then .ok (cppToAssemblyFallback source_code)
  else .error ((("Unsupported target language: ").data) ++ target_language)

/-- Artifact phrases of `_is_artifact_line`. -/
def artifactLinePats : List Str :=
  [("you can also do this").data, ("translation:").data, ("here is the").data,
   ("the following").data, ("generated code").data, ("this is the").data,
   ("class function").data, ("file = =tdout").data]

/-- `CodeGenModel._is_artifact_line`. -/
def isArtifactLine (line : Str) : Bool :=
  artifactLinePats.any (fun p => containsSub (pyLower line) p)

/-- Language-section tags skipped by `_clean_translated_code`. -/
def langSectionTags : List Str :=
  [("c++:").data, ("java:").data, ("javascript:").data, ("python:").data,
   ("assembly:").data]

/-- `CodeGenModel._clean_translated_code`. -/
def cleanTranslatedCode (code : Str) : Str :=
  joinNL ((splitNL code).filterMap (fun line0 =>
    let line := pyStrip line0
    if isArtifactLine line then none
    else if langSectionTags.any (fun tag => containsSub (pyLower line) tag) then none
    else if !line.isEmpty && !startsWith line (("#").data) && !startsWith line (("//").data) then
      some line
    else none))

/-- Prose phrases of `_extract_code_like_content`. -/
def prosePhrases : List Str :=
  [("this is").data, ("here is").data, ("the following").data, ("you can").data,
   ("also do").data, ("translation").data, ("convert").data, ("transform").data]

/-- Code-start literals of `_extract_code_like_content`. -/
def codeStarts : List Str :=
  [("def ").data, ("int ").data, ("float ").data, ("char ").data, ("bool ").data,
   ("if ").data, ("for ").data]

/-- `CodeGenModel._extract_code_like_content`.  The regex
`[=+\-*/();{}\[\]]` is a character-class search. -/
def extractCodeLike (text : Str) : Str :=
  let codeLines := (splitNL text).filterMap (fun line0 =>
    let line := pyStrip line0
    if !line.isEmpty && !(prosePhrases.any (fun p => containsSub (pyLower line) p)) then
      if line.any (fun c => (("=+-*/();\x7b\x7d[]").data).contains c) ||
          codeStarts.any (fun p => startsWith line p) then
        some line
      else none
    else none)
  joinNL (codeLines.take 50)

/-- Index of the last newline of a list, if any. -/
def lastNLIdx : Str → Option Nat
  | [] => none
  | c :: t =>
    match lastNLIdx t with
    | some i => some (i + 1)
    | none => if c = '\n' then some 0 else none

/-- Lookahead `(?=\n\n[A-Z]|\Z)` under `re.IGNORECASE` (so `[A-Z]` matches
both cases). -/
def lookaheadStop (s : Str) : Bool :=
  match s with
  | '\n' :: '\n' :: c :: _ => c.isAlpha
  | _ => false

/-- Lazy capture `(.*?)` under `re.DOTALL`, stopped by `lookaheadStop` or the
end of the text. -/
def lazyCapture : Str → Str
  | [] => []
  | c :: t => if lookaheadStop (c :: t) then [] else c :: lazyCapture t

/-- Leftmost match of `name:\s*\n` (case-insensitive); returns the suffix
after the greedy `\s*\n`, i.e. the capture start of
`name:\s*\n(.*?)(?=\n\n[A-Z]|\Z)`.  The greedy `\s*` backtracks so that the
literal `\n` lands on the last newline of the whitespace run. -/
def sectionFind (name : Str) : Str → Option Str
  | [] => none
  | c :: t =>
    (if startsWith (pyLower (c :: t)) (pyLower (name ++ ((":").data))) then
      let rest := (c :: t).drop (name.length + 1)
      let run := rest.takeWhile isPySpace
      match lastNLIdx run with
      | some k => some (rest.drop (k + 1))
      | none => none
    else none) <|> sectionFind name t

/-- Prompt-echo markers of `_extract_translation`. -/
def promptMarkers (target_language : Str) : List Str :=
  [("C++:\n").data,
   ("\n\n").data ++ capitalizeStr target_language ++ ((":").data),
   ("\n\n").data ++ target_language ++ ((":").data)]

/-- Marker-stripping loop of `_extract_translation`: split on the first
marker present and keep the stripped second part. -/
def firstMarkerSplit (gen : Str) : List Str → Str
  | [] => gen
  | m :: ms =>
    match subIdx gen m with
    | some i => pyStrip (gen.drop (i + m.length))
    | none => firstMarkerSplit gen ms

/-- `CodeGenModel._extract_translation`.  For the four supported languages
both alternative patterns coincide under `re.IGNORECASE`; for other languages
the fallback pattern `Lang:\s*\n(.*?)` captures the empty string whenever it
matches. -/
def extractTranslation (generated_text target_language : Str) : Str :=
  let cleaned := firstMarkerSplit generated_text (promptMarkers target_language)
  if supportedLanguages.contains target_language then
    match sectionFind target_language cleaned with
    | some afterHeader => cleanTranslatedCode (pyStrip (lazyCapture afterHeader))
    | none => extractCodeLike cleaned
  else
    match sectionFind (capitalizeStr target_language) cleaned with
    | some _ => cleanTranslatedCode (pyStrip [])
    | none => extractCodeLike cleaned

/-- Artifact indicators of `_contains_obvious_artifacts`. -/
def artifactIndicators : List Str :=
  [("file = =tdout").data, ("translation:").data, ("you can also do this").data,
   ("class function").data, ("this is the").data, ("here is the").data]

/-- `CodeGenModel._contains_obvious_artifacts`. -/
def containsObviousArtifacts (text : Str) : Bool :=
  artifactIndicators.any (fun p => containsSub (pyLower text) p)

/-- Trust gate and fallback logic of `_ml_translate` after the engine output
`generated_text` has been decoded (lines 180-198 of the source). -/
def mlAccept (generated_text source_code target_language : Str) : Except Str Str :=
  let translated := extractTranslation generated_text target_language
  if translated.isEmpty || (pyStrip translated).length < 10 then
    fallbackTranslate source_code target_language
  else if containsObviousArtifacts translated then
    fallbackTranslate source_code target_language
  else .ok translated

/-- `CodeGenModel.translate`: the `is_initialized` guard, the lowercase
normalisation, the unsupported-language rejection, then dispatch to the
fallback or generative path (the latter given the decoded engine output). -/
def modelTranslate (is_initialized fallback_mode : Bool) (generated_text : Str)
    (source_code target_language : Str) : Except Str Str :=
  if !is_initialized then
    .error ("Model not initialized. Call load_model() first.").data
  else
    let target_language := pyLower target_language
    if !(supportedLanguages.contains target_language) then
      .error ((("Unsupported target language: ").data) ++ target_language)
    else if fallback_mode then fallbackTranslate source_code target_language
    else mlAccept generated_text source_code target_language

/-! ## Base model (`models/base_model.py`) and app entry (`app.py`) -/

/-- `BaseTranslationModel.set_confidence`: clamp into `[0, 1]`. -/
def setConfidence (confidence : ℚ) : ℚ := max 0 (min 1 confidence)

/-- `last_confidence` after `__init__` (0.0) followed by a sequence of
`set_confidence` calls — the only operations that write the field. -/
def runConfidence (ops : List ℚ) : ℚ := ops.foldl (fun _ c => setConfidence c) 0

/-- Translation request body: each field is `none` when the key is absent;
`tokens`, whose contents are never inspected by the validation, is recorded
as `some isList`. -/
structure TransRequest where
  source_code : Option Str
  target_language : Option Str
  tokens : Option Bool

/-- Valid languages of `validate_translation_request`. -/
def validLanguages : List Str :=
  [("python").data, ("java").data, ("javascript").data, ("assembly").data]

/-- `validate_translation_request` (`data = none` models a falsy body). -/
def validateTranslationRequest (data : Option TransRequest) : List Str :=
  match data with
  | none => [("Request body is empty").data]
  | some d =>
    let errors : List Str := []
    let errors :=
      if (match d.source_code with
          | none => true
          | some s => (pyStrip s).isEmpty) then
        errors ++ [("source_code is required and cannot be empty").data]
      else errors
    let errors :=
      match d.target_language with
      | none => errors ++ [("target_language is required and cannot be empty").data]
      | some t =>
        if (pyStrip t).isEmpty then
          errors ++ [("target_language is required and cannot be empty").data]
        else if !(validLanguages.contains (pyLower t)) then
          errors ++ [("target_language must be one of: python, java, javascript, assembly").data]
        else errors
    match d.tokens with
    | some false => errors ++ [("tokens must be a list if provided").data]
    | _ => errors

/-- Error response of `format_error_response`: message, optional details,
HTTP status. -/
structure ErrResponse where
  message : Str
  details : Option Str
  status : Nat
deriving DecidableEq

/-- `translate_code` up to the dispatch into the pipeline: a falsy body or a
failed request validation is rejected before any pipeline component runs; the
pipeline itself (preprocess, translate, format, validate) is abstracted as the
argument `pipe` applied to the extracted request fields. -/
def translateCode (pipe : Str → Str → Str) (data : Option TransRequest) :
    Except ErrResponse Str :=
  match data with
  | none => .error ⟨("Invalid JSON request").data, none, 400⟩
  | some d =>
    let validationErrors := validateTranslationRequest (some d)
    if !validationErrors.isEmpty then
      .error ⟨("Validation failed").data,
        some (joinSep (("; ").data) validationErrors), 400⟩
    else
      .ok (pipe ((d.source_code.getD []) : Str) (pyLower (d.target_language.getD [])))

/-! ## Structural extractor (`preprocessing/ast_processor.py`)

`ASTProcessor.parse_code`.  The exact-parse branch for Python delegates to the
external `ast.parse` collaborator, modelled as an oracle returning the walked
structure lists on success and `none` for a `SyntaxError` (the only exception
the code catches there).  Fallible Python operations (`parts[-1]` indexing)
are threaded through `Except`. -/

structure ParamInfo where
  name : Str
  type : Str
deriving DecidableEq, Repr

structure FuncInfo where
  name : Str
  line : Nat
  parameters : List ParamInfo
  return_type : Str
  is_method : Bool
  class_name : Option Str
deriving DecidableEq, Repr

/-- Function entries: the C++/Java scanner and the JavaScript scanner emit
dicts of different shapes. -/
inductive FuncEntry
  | cpp (f : FuncInfo)
  | js (name : Str) (line : Nat) (parameters : List ParamInfo) (is_async : Bool)
deriving DecidableEq, Repr

def FuncEntry.parameters : FuncEntry → List ParamInfo
  | .cpp f => f.parameters
  | .js _ _ ps _ => ps

/-- Class entries (`methods` and `properties` are created empty and never
filled by the generic parsers). -/
structure ClassEntry where
  name : Str
  line : Nat
deriving DecidableEq, Repr

structure ImportEntry where
  name : Str
  type : Str
  line : Nat
deriving DecidableEq, Repr

structure CFEntry where
  type : Str
  line : Nat
deriving DecidableEq, Repr

structure Metrics where
  cyclomatic_complexity : Nat
  function_count : Nat
  class_count : Nat
  nesting_depth : Nat
  parameter_count : Nat
  control_flow_count : Nat
deriving DecidableEq, Repr

/-- `_calculate_complexity_metrics`. -/
def calcMetrics (fns : List FuncEntry) (cls : List ClassEntry) (cf : List CFEntry) : Metrics :=
  { cyclomatic_complexity := 1 + cf.length + fns.length + cls.length
    function_count := fns.length
    class_count := cls.length
    nesting_depth := 0
    parameter_count := (fns.map (fun f => f.parameters.length)).sum
    control_flow_count := cf.length }

structure AstInfo where
  language : Str
  functions : List FuncEntry
  classes : List ClassEntry
  vars : List Str
  imports : List ImportEntry
  control_flow : List CFEntry
  metrics : Metrics
  warnings : List Str
deriving DecidableEq, Repr

/-- Structure lists produced by walking a successful `ast.parse` tree
(external collaborator). -/
structure PyWalk where
  functions : List FuncEntry
  classes : List ClassEntry
  imports : List ImportEntry
  control_flow : List CFEntry

/-- Oracle for `ast.parse`: `some` = parsed tree (already walked), `none` =
`SyntaxError`. -/
abbrev AstOracle := Str → Option PyWalk

/-- Regex search `(class|struct)\s+(\w+)`, returning group 2. -/
def classSearch : Str → Option Str
  | [] => none
  | c :: t =>
    (do
      let s1 ←
        match expectLit (("class").data) (c :: t) with
        | some r => some r
        | none => expectLit (("struct").data) (c :: t)
      let (_, s2) ← takeWs1 s1
      let (name, _) ← takeWord1 s2
      pure name) <|> classSearch t

/-- One repetition `\w+\s+` of the leading group of the function pattern. -/
def lexUnit (s : Str) : Option (Str × Str) := do
  let (w, s1) ← takeWord1 s
  let (sp, s2) ← takeWs1 s1
  pure (w ++ sp, s2)

/-- States reachable by `(\w+\s+)*`: pairs of (last consumed repetition,
remaining suffix), ordered by increasing repetition count. -/
def unitStatesGo : Nat → Str → List (Option Str × Str)
  | 0, s => [(none, s)]
  | fuel + 1, s =>
    (none, s) ::
      match lexUnit s with
      | some (u, r) => (unitStatesGo fuel r).map (fun p => (some (p.1.getD u), p.2))
      | none => []

def unitStates (s : Str) : List (Option Str × Str) := unitStatesGo s.length s

/-- Tail `(\w+)\s*\([^)]*\)\s*(\{|;)` of the function pattern, returning
group 2. -/
def funcTail (s : Str) : Option Str := do
  let (w, s1) ← takeWord1 s
  let s2 := (takeWs0 s1).2
  let s3 ← expectChar '(' s2
  let (_, s4) := takeUntilChar ')' s3
  let s5 ← expectChar ')' s4
  let s6 := (takeWs0 s5).2
  match s6 with
  | '{' :: _ => pure w
  | ';' :: _ => pure w
  | _ => none

/-- Match of `(\w+\s+)*(\w+)\s*\([^)]*\)\s*(\{|;)` anchored at the start of
`s` (greedy repetition, backtracking unit by unit), returning
(group 1, group 2). -/
def funcMatchAt (s : Str) : Option (Option Str × Str) :=
  (unitStates s).reverse.findSome? (fun p => (funcTail p.2).map (fun w => (p.1, w)))

/-- Regex search of the function pattern (leftmost match). -/
def funcSearch : Str → Option (Option Str × Str)
  | [] => none
  | c :: t => funcMatchAt (c :: t) <|> funcSearch t

/-- Regex search `\(([^)]*)\)`, returning group 1. -/
def parenSearch : Str → Option Str
  | [] => none
  | c :: t =>
    (if c = '(' then
      let (content, s1) := takeUntilChar ')' t
      match s1 with
      | ')' :: _ => some content
      | _ => none
    else none) <|> parenSearch t

/-- `ASTProcessor.cpp_keywords`. -/
def cppKeywords : List Str :=
  [("int").data, ("float").data, ("double").data, ("char").data, ("bool").data,
   ("void").data, ("if").data, ("else").data, ("for").data, ("while").data,
   ("do").data, ("switch").data, ("case").data, ("break").data,
   ("continue").data, ("return").data, ("class").data, ("struct").data,
   ("public").data, ("private").data, ("protected").data, ("static").data,
   ("const").data, ("virtual").data, ("override").data]

/-- Parameter extraction of `_parse_cpp_java_like` (the `parts[-1]` indexing
is the fallible operation). -/
def extractParams (line : Str) : Except Str (List ParamInfo) :=
  match parenSearch line with
  | none => .ok []
  | some content =>
    (splitOnChar ',' content).foldlM
      (fun acc param0 =>
        let param := pyStrip param0
        if param.isEmpty then .ok acc
        else
          let parts := pySplitWs param
          match parts.getLast? with
          | none => .error ("IndexError: list index out of range").data
          | some name =>
            .ok (acc ++ [⟨name,
              if parts.length > 1 then joinSep ((" ").data) parts.dropLast
              else ("auto").data⟩]))
      []

structure CppScanState where
  in_function : Bool
  in_class : Bool
  brace_level : Int
  current_class : Option ClassEntry
  functions : List FuncEntry
  classes : List ClassEntry
  imports : List ImportEntry

/-- Per-line step of the `_parse_cpp_java_like` scan. -/
def cppScanStep (lang : Str) (st : CppScanState) (il : Nat × Str) : Except Str CppScanState := do
  let line := pyStrip il.2
  if line.isEmpty || startsWith line (("//").data) || startsWith line (("/*").data) then
    pure st
  else
    let st :=
      if lang = ("cpp").data && startsWith line (("#include").data) then
        { st with imports := st.imports ++ [⟨line, ("include").data, il.1⟩] }
      else st
    let st :=
      match classSearch line with
      | some cname =>
        if !st.in_class then
          let ce : ClassEntry := ⟨cname, il.1⟩
          { st with
            classes := st.classes ++ [ce]
            in_class := true
            current_class := some ce }
        else st
      | none => st
    let st ←
      match funcSearch line with
      | some (g1, fname) =>
        if !st.in_function then
          if !(cppKeywords.contains fname) || fname = ("operator").data then do
            let params ← extractParams line
            let fi : FuncInfo :=
              { name := fname, line := il.1, parameters := params
                return_type :=
                  match g1 with
                  | some g => pyStrip g
                  | none => ("void").data
                is_method := st.current_class.isSome
                class_name := st.current_class.map (fun c => c.name) }
            pure { st with functions := st.functions ++ [.cpp fi], in_function := true }
          else pure st
        else pure st
      | none => pure st
    let brace := st.brace_level + (countChar '{' line : Int) - (countChar '}' line : Int)
    let st := { st with brace_level := brace }
    let st :=
      if st.in_class && brace = 0 then
        { st with in_class := false, current_class := none }
      else st
    let st :=
      if st.in_function && brace = 0 then { st with in_function := false }
      else st
    pure st

/-- `ASTProcessor._parse_cpp_java_like`. -/
def parseCppJavaLike (code lang : Str) : Except Str AstInfo := do
  let lines := splitNL code
  let init : CppScanState :=
    { in_function := false
      in_class := false
      brace_level := 0
      current_class := none
      functions := []
      classes := []
      imports := [] }
  let st ← (enumFrom 1 lines).foldlM (cppScanStep lang) init
  pure
    { language := lang
      functions := st.functions
      classes := st.classes
      vars := []
      imports := st.imports
      control_flow := []
      metrics := calcMetrics [] [] []
      warnings := [] }

/-- JavaScript pattern `function\s+(\w+)\s*\(` anchored at the start. -/
def jsFun1At (s : Str) : Option Str := do
  let s1 ← expectLit (("function").data) s
  let (_, s2) ← takeWs1 s1
  let (name, s3) ← takeWord1 s2
  let s4 := (takeWs0 s3).2
  let _ ← expectChar '(' s4
  pure name

/-- JavaScript pattern `const\s+(\w+)\s*=\s*\([^)]*\)\s*=>`. -/
def jsFun2At (s : Str) : Option Str := do
  let s1 ← expectLit (("const").data) s
  let (_, s2) ← takeWs1 s1
  let (name, s3) ← takeWord1 s2
  let s4 := (takeWs0 s3).2
  let s5 ← expectChar '=' s4
  let s6 := (takeWs0 s5).2
  let s7 ← expectChar '(' s6
  let (_, s8) := takeUntilChar ')' s7
  let s9 ← expectChar ')' s8
  let s10 := (takeWs0 s9).2
  let _ ← expectLit (("=>").data) s10
  pure name

/-- JavaScript pattern `(\w+)\s*:\s*function\s*\(`. -/
def jsFun3At (s : Str) : Option Str := do
  let (name, s1) ← takeWord1 s
  let s2 := (takeWs0 s1).2
  let s3 ← expectChar ':' s2
  let s4 := (takeWs0 s3).2
  let s5 ← expectLit (("function").data) s4
  let s6 := (takeWs0 s5).2
  let _ ← expectChar '(' s6
  pure name

/-- JavaScript pattern `async\s+function\s+(\w+)\s*\(`. -/
def jsFun4At (s : Str) : Option Str := do
  let s1 ← expectLit (("async").data) s
  let (_, s2) ← takeWs1 s1
  let s3 ← expectLit (("function").data) s2
  let (_, s4) ← takeWs1 s3
  let (name, s5) ← takeWord1 s4
  let s6 := (takeWs0 s5).2
  let _ ← expectChar '(' s6
  pure name

/-- Leftmost search of one anchored pattern. -/
def searchWith (m : Str → Option Str) : Str → Option Str
  | [] => none
  | c :: t => m (c :: t) <|> searchWith m t

/-- Regex search `class\s+(\w+)` (the JavaScript class pattern). -/
def jsClassAt (s : Str) : Option Str := do
  let s1 ← expectLit (("class").data) s
  let (_, s2) ← takeWs1 s1
  let (name, _) ← takeWord1 s2
  pure name

/-- `ASTProcessor._parse_javascript`. -/
def parseJavascript (code : Str) : AstInfo :=
  let lines := splitNL code
  let folded := (enumFrom 1 lines).foldl
    (fun (acc : List FuncEntry × List ClassEntry × List ImportEntry) il =>
      let line := pyStrip il.2
      if line.isEmpty || startsWith line (("//").data) || startsWith line (("/*").data) then
        acc
      else
        let acc :=
          if startsWith line (("import ").data) ||
              (startsWith line (("const ").data) && containsSub line (("require").data)) then
            (acc.1, acc.2.1, acc.2.2 ++ [⟨line, ("import").data, il.1⟩])
          else acc
        let acc :=
          match [jsFun1At, jsFun2At, jsFun3At, jsFun4At].findSome?
              (fun m => searchWith m line) with
          | some name =>
            (acc.1 ++ [.js name il.1 [] (containsSub line (("async").data))], acc.2.1, acc.2.2)
          | none => acc
        match searchWith jsClassAt line with
        | some name => (acc.1, acc.2.1 ++ [⟨name, il.1⟩], acc.2.2)
        | none => acc)
    ([], [], [])
  { language := ("javascript").data
    functions := folded.1
    classes := folded.2.1
    vars := []
    imports := folded.2.2
    control_flow := []
    metrics := calcMetrics [] [] []
    warnings := [] }

/-- `ASTProcessor._parse_generic`. -/
def parseGeneric (code lang : Str) : Except Str AstInfo := do
  let base : AstInfo :=
    { language := lang
      functions := []
      classes := []
      vars := []
      imports := []
      control_flow := []
      metrics := calcMetrics [] [] []
      warnings := [("Using simplified parser - results may be limited").data] }
  let info ←
    if lang = ("cpp").data || lang = ("java").data then parseCppJavaLike code lang
    else if lang = ("javascript").data then .ok (parseJavascript code)
    else .ok base
  pure { info with metrics := calcMetrics info.functions info.classes info.control_flow }

/-- `ASTProcessor.parse_code` (the python tree walk of
`_extract_python_ast_info` is the oracle output; that dict carries no
`warnings` key, modelled as the empty list). -/
def parseCode (code lang : Str) (oracle : AstOracle) : Except Str AstInfo :=
  if lang = ("python").data then
    match oracle code with
    | some w =>
      .ok
        { language := ("python").data
          functions := w.functions
          classes := w.classes
          vars := []
          imports := w.imports
          control_flow := w.control_flow
          metrics := calcMetrics w.functions w.classes w.control_flow
          warnings := [] }
    | none => parseGeneric code (("python").data)
  else parseGeneric code lang

/-- Warnings list of a parse result (empty for an exception). -/
def warningsOfAst : Except Str AstInfo → List Str
  | .ok i => i.warnings
  | .error _ => []

/-! ## Normalizer (`preprocessing/tokenizer.py`)

`CodeTokenizer.preprocess` for the default source language `cpp` and no
external token list (the `tokens` argument defaults to `None`, and
`_enhance_with_tokens` is skipped for a falsy value). -/

/-- Keyword test of the comment replacer: the uppercased comment contains one
of TODO / FIXME / IMPORTANT / NOTE. -/
def keywordComment (com : Str) : Bool :=
  [("TODO").data, ("FIXME").data, ("IMPORTANT").data, ("NOTE").data].any
    (fun k => containsSub (pyUpper com) k)

/-- Matcher for the cpp comment pattern `//.*?$|/\*.*?\*/` with
`re.MULTILINE | re.DOTALL` (the lazy `.*?$` stops before the next newline; an
unterminated block comment does not match), combined with the
keyword-preserving replacer. -/
def commentM (s : Str) : Option (Str × Nat) :=
  if startsWith s (("//").data) then
    let body := (s.drop 2).takeWhile (fun c => c ≠ '\n')
    let com : Str := '/' :: '/' :: body
    some ((if keywordComment com then com else (" /* comment */ ").data), com.length - 1)
  else if startsWith s (("/*").data) then
    match subIdx (s.drop 2) (("*/").data) with
    | some i =>
      let com : Str := '/' :: '*' :: ((s.drop 2).take i ++ ('*' :: '/' :: []))
      some ((if keywordComment com then com else (" /* comment */ ").data), com.length - 1)
    | none => none
  else none

/-- Matcher for `\n\s*\n\s*\n+` replaced by `\n\n`: a whitespace run starting
with a newline and containing at least three newlines matches from its first
through its last newline. -/
def collapseM (s : Str) : Option (Str × Nat) :=
  match s with
  | '\n' :: _ =>
    let run := s.takeWhile isPySpace
    if 3 ≤ countChar '\n' run then
      match lastNLIdx run with
      | some k => some ((("\n\n").data), k)
      | none => none
    else none
  | _ => none

/-- Body scan of a quoted string literal `q([^q\\]|\\.)*q`: length of the body
up to the closing quote, or `none` when unterminated (a backslash must be
followed by a non-newline character, since `.` does not match newlines). -/
def quoteBody (q : Char) : Str → Option Nat
  | [] => none
  | c :: t =>
    if c = q then some 0
    else if c = '\\' then
      match t with
      | [] => none
      | x :: u => if x = '\n' then none else (quoteBody q u).map (· + 2)
    else (quoteBody q t).map (· + 1)

/-- Matcher for a quoted string literal, replaced by `<STRING>`. -/
def quoteM (q : Char) (s : Str) : Option (Str × Nat) :=
  match s with
  | c :: t =>
    if c = q then
      match quoteBody q t with
      | some b => some ((("<STRING>").data), b + 1)
      | none => none
    else none
  | [] => none

/-- Matcher for `(\w+\s+\w+\s*\([^)]*\)\s*\{)` replaced by
`\n// FUNCTION_START\n\1`. -/
def fstartM (s : Str) : Option (Str × Nat) :=
  match takeWord1 s with
  | none => none
  | some (w1, s1) =>
  match takeWs1 s1 with
  | none => none
  | some (sp1, s2) =>
  match takeWord1 s2 with
  | none => none
  | some (w2, s3) =>
  match takeWs0 s3 with
  | (sp2, s4) =>
  match expectChar '(' s4 with
  | none => none
  | some s5 =>
  match takeUntilChar ')' s5 with
  | (inner, s6) =>
  match expectChar ')' s6 with
  | none => none
  | some s7 =>
  match takeWs0 s7 with
  | (sp3, s8) =>
  match expectChar '{' s8 with
  | none => none
  | some _ =>
    let pre := w1 ++ sp1 ++ w2 ++ sp2 ++ '(' :: inner ++ ')' :: sp3
    let core := pre ++ ['{']
    some ((("\n// FUNCTION_START\n").data) ++ core, core.length - 1)

/-- Matcher for `(\})\s*(?=\n|$)` replaced by `\1\n// FUNCTION_END\n`: the
greedy `\s*` backtracks to the largest whitespace prefix after which the text
ends or continues with a newline. -/
def fendM (s : Str) : Option (Str × Nat) :=
  match s with
  | '}' :: t =>
    let run := t.takeWhile isPySpace
    let kOpt :=
      if (t.drop run.length).isEmpty then some run.length
      else lastNLIdx run
    match kOpt with
    | some k => some ((("\x7d\n// FUNCTION_END\n").data), k)
    | none => none
  | _ => none

/-- Matcher for `(kw\s+\w+\s*\{)` replaced by `marker\1` (the CLASS_START and
STRUCT_START rules). -/
def kwBraceM (kw marker : Str) (s : Str) : Option (Str × Nat) :=
  match expectLit kw s with
  | none => none
  | some s1 =>
  match takeWs1 s1 with
  | none => none
  | some (sp1, s2) =>
  match takeWord1 s2 with
  | none => none
  | some (w, s3) =>
  match takeWs0 s3 with
  | (sp2, s4) =>
  match expectChar '{' s4 with
  | none => none
  | some _ =>
    let pre := kw ++ sp1 ++ w ++ sp2
    let core := pre ++ ['{']
    some ((marker ++ core), core.length - 1)

/-- Matcher for `#include\s*[<"][^>"]*[>"]` replaced by `// INCLUDE\n\g<0>`. -/
def includeM (s : Str) : Option (Str × Nat) :=
  match expectLit (("#include").data) s with
  | none => none
  | some s1 =>
  match takeWs0 s1 with
  | (sp, s2) =>
  match s2 with
  | c :: t =>
    if c = '<' || c = '"' then
      let body := t.takeWhile (fun x => x ≠ '>' && x ≠ '"')
      match t.drop body.length with
      | d :: _ =>
        let core := ((("#include").data ++ sp ++ c :: body) ++ [d])
        some ((("// INCLUDE\n").data) ++ core, core.length - 1)
      | [] => none
    else none
  | [] => none

/-- Matcher for the literal `\r\n`, replaced by `\n`. -/
def crlfM (s : Str) : Option (Str × Nat) :=
  if startsWith s (("\r\n").data) then some ((("\n").data), 1) else none

/-- `CodeTokenizer._normalize_line_endings`: `replace('\r\n','\n')` then
`replace('\r','\n')` (a single-character replace is a map). -/
def normalizeLineEndings (code : Str) : Str :=
  let code := applySub crlfM code
  code.map (fun c => if c = '\r' then '\n' else c)

/-- `CodeTokenizer._normalize_whitespace`: tabs to four spaces, collapse runs
of three or more newlines, strip. -/
def normalizeWhitespace (code : Str) : Str :=
  let code := code.flatMap (fun c => if c = '\t' then ("    ").data else [c])
  let code := applySub collapseM code
  pyStrip code

/-- `CodeTokenizer._process_comments` for the cpp comment grammar. -/
def processComments (code : Str) : Str := applySub commentM code

/-- `CodeTokenizer._normalize_strings`: double-quoted then single-quoted
literals become `<STRING>`. -/
def normalizeStrings (code : Str) : Str :=
  let code := applySub (quoteM '"') code
  applySub (quoteM '\'') code

/-- `CodeTokenizer._add_structural_markers`. -/
def addStructuralMarkers (code : Str) : Str :=
  let code := applySub fstartM code
  let code := applySub fendM code
  let code := applySub (kwBraceM (("class").data) (("\n// CLASS_START\n").data)) code
  let code := applySub (kwBraceM (("struct").data) (("\n// STRUCT_START\n").data)) code
  applySub includeM code

/-- `CodeTokenizer.preprocess` (default `source_language='cpp'`, no token
list). -/
def preprocess (source_code : Str) : Str :=
  if source_code.isEmpty || (pyStrip source_code).isEmpty then []
  else
    let code := normalizeLineEndings source_code
    let code := normalizeWhitespace code
    let code := processComments code
    let code := normalizeStrings code
    let code := addStructuralMarkers code
    if pyEndsWith code (("\n").data) then code else code ++ ("\n").data

/-! ## Derived specification functions -/

/-- Effect on the confidence of recording one issue, as a function of the
issue alone: errors subtract 0.2 (floored at 0), warnings subtract 0.1
(floored at 0) and the repetition warning additionally subtracts 0.1 with a
floor of 0.7; the short-output info subtracts 0.1 with a floor of 0.5; other
infos leave the confidence unchanged. -/
def confStep (c : ℚ) (i : Issue) : ℚ :=
  match i.level with
  | .error => max 0 (c - 1/5)
  | .warning =>
    let c := max 0 (c - 1/10)
    if i.message = repMsg then max (7/10) (c - 1/10) else c
  | .info => if i.message = shortMsg then max (1/2) (c - 1/10) else c

/-- Replay of the confidence updates over the recorded issue list, starting
from 1. -/
def confReplay (issues : List Issue) : ℚ := issues.foldl confStep 1

/-- Confidence formula exactly as claim C2 states it: start at 1.0, subtract
0.2 per error floored at 0, subtract 0.1 per warning floored at 0, floor at
0.7 when a repetition warning was recorded, floor at 0.5 when a short-output
info was recorded, and add a +0.1 bonus capped at 1.0 when no errors and no
warnings were recorded — in this successive order. -/
def confClaimed (r : VResult) : ℚ :=
  let e := (errorsOf r).length
  let w := (warningsOf r).length
  let c : ℚ := 1
  let c := max 0 (c - (e : ℚ) * (1/5))
  let c := max 0 (c - (w : ℚ) * (1/10))
  let c := if (warningsOf r).any (fun i => i.message = repMsg) then max (7/10) c else c
  let c := if (infosOf r).any (fun i => i.message = shortMsg) then max (1/2) c else c
  if e = 0 ∧ w = 0 then min 1 (c + 1/10) else c

/-- Ends with exactly one trailing newline: the last character is a newline
and the one before it (if any) is not. -/
def endsOneNL (s : Str) : Prop :=
  s.getLast? = some '\n' ∧ s.reverse.take 2 ≠ ['\n', '\n']

instance (s : Str) : Decidable (endsOneNL s) := by unfold endsOneNL; infer_instance

/-- The last two characters of a string, last first. -/
def last2 (s : Str) : Str := s.reverse.take 2

/-- A matcher whose replacements all have at least two characters and do not
end with a newline. -/
def replOk (m : Str → Option (Str × Nat)) : Prop :=
  ∀ s r k, m s = some (r, k) → 2 ≤ r.length ∧ r.getLast? ≠ some '\n'

/-- A matcher whose replacements all have at least two characters and do not
end with two newlines. -/
def replOkNL (m : Str → Option (Str × Nat)) : Prop :=
  ∀ s r k, m s = some (r, k) → 2 ≤ r.length ∧ last2 r ≠ ('\n' :: '\n' :: [])

/-! # Theorems -/

/-- Fold preservation of a predicate. -/
theorem foldl_pres {α β : Type _} {P : β → Prop} (f : β → α → β)
    (hf : ∀ b a, P b → P (f b a)) :
    ∀ (l : List α) (b : β), P b → P (l.foldl f b)
  | [], _, hb => hb
  | a :: l, b, hb => foldl_pres f hf l (f b a) (hf b a hb)

theorem confReplay_concat (is : List Issue) (i : Issue) :
    confReplay (is ++ [i]) = confStep (confReplay is) i := by
  simp [confReplay, List.foldl_append]

/-- Confidence-replay invariant. -/
def ReplayInv (r : VResult) : Prop := r.confidence = confReplay r.issues

theorem confStep_bounds (c : ℚ) (i : Issue) (h0 : 0 ≤ c) (h1 : c ≤ 1) :
    0 ≤ confStep c i ∧ confStep c i ≤ 1 := by
  unfold confStep
  rcases i with ⟨lv, msg, ln⟩
  cases lv <;> dsimp only
  · constructor
    · exact le_max_left 0 _
    · exact max_le (by norm_num) (by linarith)
  · have hb : (0 : ℚ) ≤ max 0 (c - 1/10) := le_max_left 0 _
    have hb1 : max 0 (c - 1/10) ≤ 1 := max_le (by norm_num) (by linarith)
    split
    · constructor
      · exact le_trans (by norm_num) (le_max_left (7/10 : ℚ) _)
      · exact max_le (by norm_num) (by linarith)
    · exact ⟨hb, hb1⟩
  · split
    · constructor
      · exact le_trans (by norm_num) (le_max_left (1/2 : ℚ) _)
      · exact max_le (by norm_num) (by linarith)
    · exact ⟨h0, h1⟩

theorem confReplay_bounds (issues : List Issue) :
    0 ≤ confReplay issues ∧ confReplay issues ≤ 1 := by
  unfold confReplay
  exact foldl_pres (P := fun c => 0 ≤ c ∧ c ≤ 1) confStep
    (fun c i hc => confStep_bounds c i hc.1 hc.2) issues 1 (by norm_num)

theorem replay_addIssue_error (r : VResult) (msg : Str) (ln : Option Nat)
    (h : ReplayInv r) : ReplayInv (addIssue r .error msg ln) := by
  unfold ReplayInv at *
  simp [addIssue, confReplay_concat, confStep, h]

theorem replay_addIssue_warning (r : VResult) (msg : Str) (ln : Option Nat)
    (hm : msg ≠ repMsg) (h : ReplayInv r) : ReplayInv (addIssue r .warning msg ln) := by
  unfold ReplayInv at *
  simp [addIssue, confReplay_concat, confStep, h, hm]

theorem replay_addIssue_info (r : VResult) (msg : Str) (ln : Option Nat)
    (hm : msg ≠ shortMsg) (h : ReplayInv r) : ReplayInv (addIssue r .info msg ln) := by
  unfold ReplayInv at *
  simp [addIssue, confReplay_concat, confStep, h, hm]

theorem replay_repStep (r : VResult) (h : ReplayInv r) :
    ReplayInv
      (let r' := addIssue r .warning repMsg none
       { r' with confidence := max (7/10) (r'.confidence - 1/10) }) := by
  unfold ReplayInv at *
  simp [addIssue, confReplay_concat, confStep, h]

theorem replay_shortStep (r : VResult) (h : ReplayInv r) :
    ReplayInv
      (let r' := addIssue r .info shortMsg none
       { r' with confidence := max (1/2) (r'.confidence - 1/10) }) := by
  unfold ReplayInv at *
  simp [addIssue, confReplay_concat, confStep, h]

theorem replay_addSuggestion (r : VResult) (s : Str) (h : ReplayInv r) :
    ReplayInv (addSuggestion r s) := by
  unfold ReplayInv at *
  simpa [addSuggestion] using h

/-- Head-disequality for strings. -/
theorem cons_ne_of_head {a b : Char} (l m : Str) (h : a ≠ b) : (a :: l : Str) ≠ b :: m := by
  intro he
  injection he with h1 _
  exact h h1

theorem replay_ite {c : Prop} [Decidable c] {a b : VResult}
    (ha : ReplayInv a) (hb : ReplayInv b) : ReplayInv (if c then a else b) := by
  split
  · exact ha
  · exact hb

theorem replay_foldl {α : Type _} (f : VResult → α → VResult)
    (hf : ∀ r a, ReplayInv r → ReplayInv (f r a)) (l : List α) (r : VResult)
    (h : ReplayInv r) : ReplayInv (l.foldl f r) := foldl_pres f hf l r h

theorem replay_basic (code : Str) (r : VResult) (h : ReplayInv r) :
    ReplayInv (validateBasicStructure code r) := by
  simp only [validateBasicStructure]
  apply replay_ite
  · exact replay_addIssue_error _ _ _ h
  · have h2 : ReplayInv ((enumFrom 1 (splitNL code)).foldl
        (fun r il =>
          artifactPats.foldl
            (fun r pat =>
              if containsSub (pyLower il.2) pat then
                addIssue r .warning ("Possible ML artifact detected").data (some il.1)
              else r) r) r) := by
      apply replay_foldl _ _ _ _ h
      intro r' il h'
      apply replay_foldl _ _ _ _ h'
      intro r'' pat h''
      exact replay_ite (replay_addIssue_warning _ _ _ (by decide) h'') h''
    exact replay_ite (replay_addIssue_warning _ _ _ (by decide) h2) h2

theorem replay_python (code : Str) (po : PyParseOracle) (r : VResult)
    (h : ReplayInv r) : ReplayInv (validatePython code po r) := by
  simp only [validatePython]
  apply replay_foldl
  · intro r' il h'
    apply replay_ite
    · apply replay_addIssue_warning _ _ _ (by decide)
      apply replay_ite (replay_addIssue_warning _ _ _ (by decide) ?_) ?_ <;>
        exact replay_ite (replay_addIssue_info _ _ _ (by decide) h') h'
    · apply replay_ite (replay_addIssue_warning _ _ _ (by decide) ?_) ?_ <;>
        exact replay_ite (replay_addIssue_info _ _ _ (by decide) h') h'
  · rcases hpo : po code with - | ⟨msg, ln⟩
    · exact h
    · exact replay_addIssue_error _ _ _ h

theorem replay_clike (code : Str) (r : VResult) (h : ReplayInv r) :
    ReplayInv (validateCLike code r) := by
  simp only [validateCLike]
  have h1 : ReplayInv ((enumFrom 1 (splitNL code)).foldl
      (fun (acc : Int × Int × VResult) il =>
        (acc.1 + (countChar '{' il.2 : Int) - (countChar '}' il.2 : Int),
         acc.2.1 + (countChar '(' il.2 : Int) - (countChar ')' il.2 : Int),
         if !(pyStrip il.2).isEmpty && !startsWith (pyStrip il.2) (("//").data) &&
             !startsWith (pyStrip il.2) (("/*").data) &&
             !pyEndsWith (pyStrip il.2) (("\x7b").data) &&
             !pyEndsWith (pyStrip il.2) (("\x7d").data) &&
             !pyEndsWith (pyStrip il.2) ((":").data) &&
             !(cLikeKeywords.any (fun kw => containsSub (pyStrip il.2) kw)) &&
             !pyEndsWith (pyStrip il.2) ((";").data) then
           if hasAssignPat (pyStrip il.2) || hasCallPat (pyStrip il.2) ||
               hasReturnPat (pyStrip il.2) ||
               hasWordBreakPat (("break").data) (pyStrip il.2) ||
               hasWordBreakPat (("continue").data) (pyStrip il.2) then
             addIssue acc.2.2 .warning ("Possible missing semicolon").data (some il.1)
           else acc.2.2
         else acc.2.2))
      ((0 : Int), (0 : Int), r)).2.2 := by
    apply foldl_pres (P := fun (acc : Int × Int × VResult) => ReplayInv acc.2.2)
    · intro b il hb
      dsimp only
      exact replay_ite (replay_ite (replay_addIssue_warning _ _ _ (by decide) hb) hb) hb
    · exact h
  apply replay_ite
  · apply replay_addIssue_warning _ _ _ (cons_ne_of_head _ _ (by decide))
    exact replay_ite (replay_addIssue_error _ _ _ h1) h1
  · exact replay_ite (replay_addIssue_error _ _ _ h1) h1

theorem replay_assembly (code : Str) (r : VResult) (h : ReplayInv r) :
    ReplayInv (validateAssembly code r) := by
  simp only [validateAssembly]
  apply replay_foldl _ _ _ _ h
  intro r' il h'
  apply replay_ite h'
  rcases pySplitWs (pyLower (pyStrip il.2)) with - | ⟨ins, rest⟩
  · exact h'
  · exact replay_ite h' (replay_ite
      (replay_addIssue_warning _ _ _ (cons_ne_of_head _ _ (by decide)) h') h')

theorem replay_consistency (code : Str) (si : SourceInfo) (r : VResult)
    (h : ReplayInv r) : ReplayInv (validateConsistency code si r) := by
  simp only [validateConsistency]
  have h1 : ReplayInv (match si.functions with
      | some fns =>
        fns.foldl
          (fun r fn =>
            if !containsSub code fn then
              addIssue r .warning
                ((("Function '").data ++ fn) ++ ("' from source not found in translation").data)
                none
            else r) r
      | none => r) := by
    rcases si.functions with - | fns
    · exact h
    · apply replay_foldl _ _ _ _ h
      intro r' fn h'
      exact replay_ite (replay_addIssue_warning _ _ _ (cons_ne_of_head _ _ (by decide)) h') h'
  rcases si.classes with - | cls
  · exact h1
  · apply replay_foldl _ _ _ _ h1
    intro r' cn h'
    exact replay_ite (replay_addIssue_warning _ _ _ (cons_ne_of_head _ _ (by decide)) h') h'

theorem replay_pyquality (code : Str) (r : VResult) (h : ReplayInv r) :
    ReplayInv (assessPythonQuality code r) := by
  simp only [assessPythonQuality]
  exact replay_ite (replay_addSuggestion _ _ (replay_ite (replay_addSuggestion _ _ h) h))
    (replay_ite (replay_addSuggestion _ _ h) h)

theorem replay_ite_sugg {c : Prop} [Decidable c] {r : VResult} (s : Str)
    (h : ReplayInv r) : ReplayInv (if c then addSuggestion r s else r) :=
  replay_ite (replay_addSuggestion _ _ h) h

theorem replay_ite_short {c : Prop} [Decidable c] {r : VResult} (h : ReplayInv r) :
    ReplayInv (if c then
      { addIssue r .info shortMsg none with
        confidence := max (1/2) ((addIssue r .info shortMsg none).confidence - 1/10) }
    else r) :=
  replay_ite (replay_shortStep r h) h

theorem replay_ite_rep {c : Prop} [Decidable c] {r : VResult} (h : ReplayInv r) :
    ReplayInv (if c then
      { addIssue r .warning repMsg none with
        confidence := max (7/10) ((addIssue r .warning repMsg none).confidence - 1/10) }
    else r) :=
  replay_ite (replay_repStep r h) h

theorem replay_quality (code lang : Str) (r : VResult) (h : ReplayInv r) :
    ReplayInv (assessQuality code lang r) := by
  simp only [assessQuality]
  apply replay_ite
  all_goals try apply replay_pyquality
  all_goals apply replay_ite_rep
  all_goals apply replay_ite_sugg
  all_goals apply replay_ite_short
  all_goals exact h

/-- Central invariant: the confidence computed by `validate` is the replay of
the per-issue updates over the recorded chronological issue list. -/
theorem validate_replay (code lang : Str) (si : Option SourceInfo) (po : PyParseOracle) :
    ReplayInv (validate code lang si po) := by
  have hinit : ReplayInv VResult.init := by
    unfold ReplayInv VResult.init confReplay
    simp
  have hbranch : ReplayInv
      (if pyLower lang = ("python").data then
        validatePython code po (validateBasicStructure code VResult.init)
      else if pyLower lang = ("java").data || pyLower lang = ("javascript").data then
        validateCLike code (validateBasicStructure code VResult.init)
      else if pyLower lang = ("assembly").data then
        validateAssembly code (validateBasicStructure code VResult.init)
      else validateBasicStructure code VResult.init) := by
    apply replay_ite
    · exact replay_python _ _ _ (replay_basic _ _ hinit)
    · apply replay_ite
      · exact replay_clike _ _ (replay_basic _ _ hinit)
      · apply replay_ite
        · exact replay_assembly _ _ (replay_basic _ _ hinit)
        · exact replay_basic _ _ hinit
  rcases si with - | s <;> simp only [validate] <;> apply replay_ite
  · exact replay_addIssue_error _ _ _ hinit
  · exact replay_quality _ _ _ hbranch
  · exact replay_addIssue_error _ _ _ hinit
  · exact replay_quality _ _ _ (replay_consistency _ _ _ hbranch)

/-- C1: for every candidate text, including the empty string, and each of the
four target languages (python, java, javascript, assembly), the confidence in
the result of `CodeValidator.validate` lies within [0.0, 1.0]. -/
theorem claim_C1 (code : Str) (si : Option SourceInfo) (po : PyParseOracle) :
    (0 ≤ (validate code (("python").data) si po).confidence ∧
      (validate code (("python").data) si po).confidence ≤ 1) ∧
    (0 ≤ (validate code (("java").data) si po).confidence ∧
      (validate code (("java").data) si po).confidence ≤ 1) ∧
    (0 ≤ (validate code (("javascript").data) si po).confidence ∧
      (validate code (("javascript").data) si po).confidence ≤ 1) ∧
    (0 ≤ (validate code (("assembly").data) si po).confidence ∧
      (validate code (("assembly").data) si po).confidence ≤ 1) := by
  have key : ∀ lang : Str, 0 ≤ (validate code lang si po).confidence ∧
      (validate code lang si po).confidence ≤ 1 := by
    intro lang
    have h := validate_replay code lang si po
    unfold ReplayInv at h
    rw [h]
    exact confReplay_bounds _
  exact ⟨key _, key _, key _, key _⟩

/-- C2 (amended): `CodeValidator.validate` computes the result confidence as
the successive replay, over the recorded issues in order, of: start at 1.0;
each error subtracts 0.2 floored at 0.0; each warning subtracts 0.1 floored
at 0.0; the repetition warning additionally subtracts a further 0.1 with a
floor of 0.7; the short-output info subtracts 0.1 with a floor of 0.5.  No
zero-issue bonus is applied inside `validate` (the +0.1 bonus belongs to
`estimate_translation_quality`). -/
theorem claim_C2_amended (code lang : Str) (si : Option SourceInfo) (po : PyParseOracle) :
    (validate code lang si po).confidence = confReplay (validate code lang si po).issues :=
  validate_replay code lang si po

/-- C2 (counterexample): on the java candidate `"x = 1;"`, `validate` returns
confidence 0.9 (the short-output info subtracts 0.1), while the formula as
claimed — floors without the extra subtraction, plus a +0.1 bonus capped at
1.0 for zero errors and warnings — yields 1.0. -/
theorem claim_C2_counterexample :
    (validate (("x = 1;").data) (("java").data) none (fun _ => none)).confidence = 9/10 ∧
    confClaimed (validate (("x = 1;").data) (("java").data) none (fun _ => none)) = 1 ∧
    (validate (("x = 1;").data) (("java").data) none (fun _ => none)).confidence ≠
      confClaimed (validate (("x = 1;").data) (("java").data) none (fun _ => none)) := by
  have hiss : (validate (("x = 1;").data) (("java").data) none (fun _ => none)).issues
      = [⟨Level.info, shortMsg, none⟩] := by decide
  have hconf := validate_replay (("x = 1;").data) (("java").data) none (fun _ => none)
  unfold ReplayInv at hconf
  rw [hiss] at hconf
  have h1 : (validate (("x = 1;").data) (("java").data) none (fun _ => none)).confidence
      = 9/10 := by
    rw [hconf]
    show confReplay [⟨Level.info, shortMsg, none⟩] = 9/10
    simp only [confReplay, List.foldl_cons, List.foldl_nil, confStep, if_pos rfl]
    rw [max_eq_right (by norm_num)]
    norm_num
  have herr : errorsOf (validate (("x = 1;").data) (("java").data) none (fun _ => none))
      = [] := by decide
  have hwarn : warningsOf (validate (("x = 1;").data) (("java").data) none (fun _ => none))
      = [] := by decide
  have hinfo : infosOf (validate (("x = 1;").data) (("java").data) none (fun _ => none))
      = [⟨Level.info, shortMsg, none⟩] := by decide
  have h2 : confClaimed (validate (("x = 1;").data) (("java").data) none (fun _ => none))
      = 1 := by
    unfold confClaimed
    rw [herr, hwarn, hinfo]
    simp only [List.length_nil, List.any_nil, List.any_cons, if_pos rfl]
    norm_num
  exact ⟨h1, h2, by rw [h1, h2]; norm_num⟩

/-- C7: for the input `"int main() { return 0"` (one unmatched opening brace)
validated against java and against javascript, `validate` reports exactly one
error, whose message reports an unmatched-brace count of 1. -/
theorem claim_C7 :
    errorsOf (validate (("int main() \x7b return 0").data) (("java").data) none (fun _ => none)) =
      [⟨Level.error, ("Unmatched braces: 1").data, none⟩] ∧
    errorsOf (validate (("int main() \x7b return 0").data) (("javascript").data) none (fun _ => none)) =
      [⟨Level.error, ("Unmatched braces: 1").data, none⟩] := by
  decide

/-- C3 (code bug): the rule-based C++-to-python fallback on
`"int x = 5;\ncout << x;"` keeps the `int` keyword — the declaration rule is
applied to `cpp_code` and its result discarded, so the output is not the
claimed `"x = 5"` form. -/
theorem claim_C3_eval :
    cppToPythonFallback (("int x = 5;\ncout << x;").data) =
      ("# Fallback translation (limited functionality)\nint x = 5\nprint(x)").data ∧
    cppToPythonFallback (("int x = 5;\ncout << x;").data) ≠
      ("# Fallback translation (limited functionality)\nx = 5\nprint(x)").data := by
  decide

theorem splitOnChar_ne_nil (sep : Char) (s : Str) : splitOnChar sep s ≠ [] := by
  cases s with
  | nil => simp [splitOnChar]
  | cons a t =>
    unfold splitOnChar
    split
    · simp
    · dsimp only
      split
      · simp
      · simp

theorem splitOnChar_chars (sep : Char) :
    ∀ (s : Str) (l : Str), l ∈ splitOnChar sep s → ∀ c ∈ l, c ∈ s := by
  intro s
  induction s with
  | nil =>
    intro l hl c hc
    simp [splitOnChar] at hl
    subst hl
    simp at hc
  | cons a t ih =>
    intro l hl c hc
    unfold splitOnChar at hl
    by_cases ha : a = sep
    · rw [if_pos ha] at hl
      rcases List.mem_cons.1 hl with hl | hl
      · subst hl; simp at hc
      · exact List.mem_cons_of_mem a (ih l hl c hc)
    · rw [if_neg ha] at hl
      revert hl
      rcases hr : splitOnChar sep t with - | ⟨l0, ls⟩
      · intro hl
        exact absurd hr (splitOnChar_ne_nil sep t)
      · intro hl
        rcases List.mem_cons.1 hl with hl | hl
        · subst hl
          rcases List.mem_cons.1 hc with hc | hc
          · rw [hc]
            exact List.mem_cons_self a t
          · refine List.mem_cons_of_mem a (ih l0 ?_ c hc)
            rw [hr]
            exact List.mem_cons_self l0 ls
        · refine List.mem_cons_of_mem a (ih l ?_ c hc)
          rw [hr]
          exact List.mem_cons_of_mem l0 hl

theorem pyStrip_eq_nil_iff (s : Str) : pyStrip s = [] ↔ ∀ c ∈ s, isPySpace c := by
  unfold pyStrip pyRStrip pyLStrip
  rw [List.reverse_eq_nil_iff, List.dropWhile_eq_nil_iff]
  constructor
  · intro h c hc
    by_cases hw : isPySpace c
    · exact hw
    · have hc2 : c ∈ s.dropWhile isPySpace := by
        rcases (List.takeWhile_append_dropWhile (p := isPySpace) (l := s)) ▸ hc with h1
        rcases List.mem_append.1 h1 with h2 | h2
        · exact absurd (List.mem_takeWhile_imp h2) hw
        · exact h2
      exact absurd (h c (by simpa using hc2)) hw
  · intro h c hc
    exact h c ((List.dropWhile_sublist isPySpace (l := s)).subset (by simpa using hc))

theorem addSuggestion_issues (r : VResult) (s : Str) :
    (addSuggestion r s).issues = r.issues := rfl

theorem addSuggestion_conf (r : VResult) (s : Str) :
    (addSuggestion r s).confidence = r.confidence := rfl

theorem pyquality_issues (code : Str) (r : VResult) :
    (assessPythonQuality code r).issues = r.issues := by
  unfold assessPythonQuality
  split <;> split <;> rfl

theorem pyquality_conf (code : Str) (r : VResult) :
    (assessPythonQuality code r).confidence = r.confidence := by
  unfold assessPythonQuality
  split <;> split <;> rfl

/-- Quality pass on a ten-line candidate with three distinct lines, all lines
non-blank: the repetition warning is recorded and the final confidence is at
least 0.7. -/
theorem assessQuality_rep (code lang : Str) (r : VResult)
    (hf : (splitNL code).filter (fun l => !(pyStrip l).isEmpty) = splitNL code)
    (hlen : (splitNL code).length = 10)
    (hd : ((splitNL code).dedup).length = 3) :
    (⟨Level.warning, repMsg, none⟩ : Issue) ∈ (assessQuality code lang r).issues ∧
    7/10 ≤ (assessQuality code lang r).confidence := by
  unfold assessQuality
  simp only [hf, hlen, hd]
  norm_num
  constructor
  · split
    · rw [pyquality_issues]
      simp [addIssue]
    · simp [addIssue]
  · split
    · rw [pyquality_conf]
      exact le_sup_left
    · exact le_sup_left

/-- C4 (amended): for every candidate text of exactly 10 lines, all
non-blank, with exactly 3 distinct line values (unique ratio 0.3 < 0.7),
`validate` records a repetition warning and returns a confidence of at least
0.7 — not at most 0.7: the repetition step sets
`confidence = max(0.7, confidence - 0.1)`, and no later step lowers it. -/
theorem claim_C4_amended (code lang : Str) (si : Option SourceInfo) (po : PyParseOracle)
    (h1 : (splitNL code).length = 10)
    (h2 : ∀ l ∈ splitNL code, pyStrip l ≠ [])
    (h3 : ((splitNL code).dedup).length = 3) :
    (⟨Level.warning, repMsg, none⟩ : Issue) ∈ (validate code lang si po).issues ∧
    7/10 ≤ (validate code lang si po).confidence := by
  have hf : (splitNL code).filter (fun l => !(pyStrip l).isEmpty) = splitNL code := by
    apply List.filter_eq_self.mpr
    intro l hl
    simpa [List.isEmpty_iff] using h2 l hl
  have hl0 : [] ∈ splitNL code → False := by
    intro hmem
    exact h2 [] hmem rfl
  have hex : ∃ c, c ∈ code ∧ ¬ isPySpace c := by
    rcases hsp : splitNL code with - | ⟨l0, ls⟩
    · rw [hsp] at h1; simp at h1
    · have hmem : l0 ∈ splitNL code := by rw [hsp]; exact List.mem_cons_self l0 ls
      have hne := h2 l0 hmem
      have : ¬ ∀ c ∈ l0, isPySpace c := fun hall => hne ((pyStrip_eq_nil_iff l0).2 hall)
      push_neg at this
      rcases this with ⟨c, hc, hcw⟩
      exact ⟨c, splitOnChar_chars '\n' code l0 hmem c hc, by simpa using hcw⟩
  rcases hex with ⟨c, hc, hcw⟩
  have hnb : ¬ ((code.isEmpty || (pyStrip code).isEmpty) = true) := by
    intro hcontra
    rcases Bool.or_eq_true_iff.1 hcontra with hE | hE
    · rw [List.isEmpty_iff] at hE
      rw [hE] at hc
      simp at hc
    · rw [List.isEmpty_iff] at hE
      exact hcw ((pyStrip_eq_nil_iff code).1 hE c hc)
  unfold validate
  rw [if_neg hnb]
  exact assessQuality_rep code lang _ hf h1 h3

/-- C4 (counterexample): the ten-line java candidate with three distinct
lines `x = 1;` / `y = 2;` / `z = 3;` receives the repetition warning but a
confidence of 0.8, refuting the claimed bound `confidence ≤ 0.7`. -/
theorem claim_C4_counterexample :
    (⟨Level.warning, repMsg, none⟩ : Issue) ∈
      (validate (("x = 1;\nx = 1;\nx = 1;\nx = 1;\ny = 2;\ny = 2;\ny = 2;\nz = 3;\nz = 3;\nz = 3;").data)
        (("java").data) none (fun _ => none)).issues ∧
    ¬ ((validate (("x = 1;\nx = 1;\nx = 1;\nx = 1;\ny = 2;\ny = 2;\ny = 2;\nz = 3;\nz = 3;\nz = 3;").data)
        (("java").data) none (fun _ => none)).confidence ≤ 7/10) := by
  have hiss : (validate (("x = 1;\nx = 1;\nx = 1;\nx = 1;\ny = 2;\ny = 2;\ny = 2;\nz = 3;\nz = 3;\nz = 3;").data)
      (("java").data) none (fun _ => none)).issues = [⟨Level.warning, repMsg, none⟩] := by
    decide
  have h := validate_replay
    (("x = 1;\nx = 1;\nx = 1;\nx = 1;\ny = 2;\ny = 2;\ny = 2;\nz = 3;\nz = 3;\nz = 3;").data)
    (("java").data) none (fun _ => none)
  unfold ReplayInv at h
  rw [hiss] at h
  constructor
  · rw [hiss]
    exact List.mem_cons_self _ _
  · rw [h]
    simp only [confReplay, List.foldl_cons, List.foldl_nil, confStep, if_pos rfl]
    rw [max_eq_right (by norm_num), max_eq_right (by norm_num)]
    norm_num

/-- C4 (witness): the amended statement applied to the concrete ten-line
candidate. -/
theorem claim_C4_witness :
    ((splitNL (("x = 1;\nx = 1;\nx = 1;\nx = 1;\ny = 2;\ny = 2;\ny = 2;\nz = 3;\nz = 3;\nz = 3;").data)).length = 10 ∧
      (∀ l ∈ splitNL (("x = 1;\nx = 1;\nx = 1;\nx = 1;\ny = 2;\ny = 2;\ny = 2;\nz = 3;\nz = 3;\nz = 3;").data),
        pyStrip l ≠ []) ∧
      ((splitNL (("x = 1;\nx = 1;\nx = 1;\nx = 1;\ny = 2;\ny = 2;\ny = 2;\nz = 3;\nz = 3;\nz = 3;").data)).dedup).length = 3) ∧
    ((⟨Level.warning, repMsg, none⟩ : Issue) ∈
        (validate (("x = 1;\nx = 1;\nx = 1;\nx = 1;\ny = 2;\ny = 2;\ny = 2;\nz = 3;\nz = 3;\nz = 3;").data)
          (("java").data) none (fun _ => none)).issues ∧
      7/10 ≤ (validate (("x = 1;\nx = 1;\nx = 1;\nx = 1;\ny = 2;\ny = 2;\ny = 2;\nz = 3;\nz = 3;\nz = 3;").data)
          (("java").data) none (fun _ => none)).confidence) :=
  ⟨⟨by decide, by decide, by decide⟩,
    claim_C4_amended _ _ _ _ (by decide) (by decide) (by decide)⟩

theorem startsWith_append_left (p : Str) :
    ∀ (s q : Str), startsWith s (p ++ q) = true → startsWith s p = true := by
  induction p with
  | nil =>
    intro s q _
    cases s <;> rfl
  | cons a ps ih =>
    intro s q h
    cases s with
    | nil => simp [startsWith] at h
    | cons c t =>
      simp only [List.cons_append, startsWith, Bool.and_eq_true] at h ⊢
      exact ⟨h.1, ih t q h.2⟩

theorem containsSub_append_left (p q : Str) :
    ∀ (s : Str), containsSub s (p ++ q) = true → containsSub s p = true := by
  intro s
  induction s with
  | nil =>
    intro h
    unfold containsSub at h ⊢
    rcases Bool.or_eq_true_iff.1 h with h1 | h1
    · cases p with
      | nil => rfl
      | cons a ps => simp [startsWith] at h1
    · simp at h1
  | cons c t ih =>
    intro h
    unfold containsSub at h ⊢
    rcases Bool.or_eq_true_iff.1 h with h1 | h1
    · exact Bool.or_eq_true_iff.2 (Or.inl (startsWith_append_left p (c :: t) q h1))
    · exact Bool.or_eq_true_iff.2 (Or.inr (ih h1))

/-- C6 (amended): the trust gate of `_ml_translate` applies to the extracted
translation, not to the raw decoded text.  When the extracted translation
still contains an artifact indicator (among them the phrase `here is the`),
the result is rejected and the rule-based output returned; and when the gate
passes, the extracted translation does not contain the phrase
`here is the translation`. -/
theorem claim_C6_amended (gen src lang : Str) :
    (containsObviousArtifacts (extractTranslation gen lang) = true →
      mlAccept gen src lang = fallbackTranslate src lang) ∧
    (containsObviousArtifacts (extractTranslation gen lang) = false →
      containsSub (pyLower (extractTranslation gen lang))
        (("here is the translation").data) = false) := by
  constructor
  · intro hart
    simp only [mlAccept]
    split
    · rfl
    · simp [hart]
  · intro hart
    by_contra hcontra
    rw [Bool.not_eq_false] at hcontra
    have hsub : containsSub (pyLower (extractTranslation gen lang))
        (("here is the").data) = true := by
      have heq : (("here is the translation").data : Str) =
          (("here is the").data : Str) ++ (" translation").data := by decide
      exact containsSub_append_left _ _ _ (heq ▸ hcontra)
    have := List.any_eq_false.1 (by simpa [containsObviousArtifacts] using hart)
      (("here is the").data) (by decide)
    simp [hsub] at this

/-- C6 (counterexample): a decoded generative output containing
`here is the translation` whose artifact line is removed by the cleaning
stage; the remaining payload is accepted, so the returned translation is not
the rule-based output. -/
theorem claim_C6_counterexample :
    containsSub (("C++:\nint x;\n\nPython:\nhere is the translation of it\nx = 111111\ny = 222222").data)
      (("here is the translation").data) = true ∧
    mlAccept (("C++:\nint x;\n\nPython:\nhere is the translation of it\nx = 111111\ny = 222222").data)
      (("int a = 1;").data) (("python").data) = .ok (("x = 111111\ny = 222222").data) ∧
    mlAccept (("C++:\nint x;\n\nPython:\nhere is the translation of it\nx = 111111\ny = 222222").data)
      (("int a = 1;").data) (("python").data) ≠
      fallbackTranslate (("int a = 1;").data) (("python").data) := by
  refine ⟨by decide, by decide, ?_⟩
  intro h
  have h2 : fallbackTranslate (("int a = 1;").data) (("python").data) =
      .ok (("x = 111111\ny = 222222").data) := h.symm.trans (by decide)
  have h3 : fallbackTranslate (("int a = 1;").data) (("python").data) =
      .ok (("# Fallback translation (limited functionality)\nint a = 1").data) := by decide
  rw [h3] at h2
  simp at h2

/-- C6 (witness): both branches of the amended statement at concrete inputs —
the `file = =tdout` artifact survives code-like extraction and triggers the
gate, while the cleaned counterexample payload passes it phrase-free. -/
theorem claim_C6_witness :
    (containsObviousArtifacts
        (extractTranslation (("file = =tdout\nx = 11111111111").data) (("python").data)) = true ∧
      mlAccept (("file = =tdout\nx = 11111111111").data) (("int a = 1;").data) (("python").data) =
        fallbackTranslate (("int a = 1;").data) (("python").data)) ∧
    (containsObviousArtifacts
        (extractTranslation (("C++:\nint x;\n\nPython:\nhere is the translation of it\nx = 111111\ny = 222222").data)
          (("python").data)) = false ∧
      containsSub
        (pyLower (extractTranslation (("C++:\nint x;\n\nPython:\nhere is the translation of it\nx = 111111\ny = 222222").data)
          (("python").data)))
        (("here is the translation").data) = false) :=
  ⟨⟨by decide,
    (claim_C6_amended (("file = =tdout\nx = 11111111111").data) (("int a = 1;").data)
      (("python").data)).1 (by decide)⟩,
   ⟨by decide,
    (claim_C6_amended (("C++:\nint x;\n\nPython:\nhere is the translation of it\nx = 111111\ny = 222222").data)
      (("int a = 1;").data) (("python").data)).2 (by decide)⟩⟩

/-- C8: a requested target language outside {python, java, javascript,
assembly} (after lowercasing) is rejected by `validate_translation_request`
before the pipeline runs — `translate_code` returns the 400 validation-failed
response, an expression independent of the pipeline — and
`CodeGenModel.translate` raises the unsupported-target-language `ValueError`
before either translation path executes. -/
theorem claim_C8 (pipe : Str → Str → Str) (d : TransRequest) (tl : Str) (fm : Bool)
    (gen src : Str)
    (htl : d.target_language = some tl)
    (hbad : validLanguages.contains (pyLower tl) = false) :
    translateCode pipe (some d) =
      .error ⟨("Validation failed").data,
        some (joinSep (("; ").data) (validateTranslationRequest (some d))), 400⟩ ∧
    modelTranslate true fm gen src tl =
      .error ((("Unsupported target language: ").data) ++ pyLower tl) := by
  constructor
  · have hne : validateTranslationRequest (some d) ≠ [] := by
      simp only [validateTranslationRequest]
      rw [htl]
      dsimp only
      have hmid : ∀ e0 : List Str,
          (if (pyStrip tl).isEmpty = true then
            e0 ++ [("target_language is required and cannot be empty").data]
          else if (!validLanguages.contains (pyLower tl)) = true then
            e0 ++ [("target_language must be one of: python, java, javascript, assembly").data]
          else e0) ≠ [] := by
        intro e0
        by_cases hstrip : (pyStrip tl).isEmpty
        · rw [if_pos hstrip]
          exact List.append_ne_nil_of_right_ne_nil _ (by simp)
        · rw [if_neg hstrip, if_pos (by rw [hbad]; rfl)]
          exact List.append_ne_nil_of_right_ne_nil _ (by simp)
      rcases d.tokens with - | tb
      · exact hmid _
      · cases tb
        · exact List.append_ne_nil_of_right_ne_nil _ (by simp)
        · exact hmid _
    simp only [translateCode]
    rw [if_pos]
    rw [Bool.not_eq_eq_eq_not, Bool.not_true, List.isEmpty_eq_false]
    exact hne
  · have hsup : supportedLanguages.contains (pyLower tl) = false := by
      have : supportedLanguages = validLanguages := by decide
      rw [this]
      exact hbad
    have hsup2 : pyLower tl ∉ supportedLanguages := by simpa using hsup
    simp [modelTranslate, hsup2]

/-- C8 (witness): the request with target language `RuBy` is rejected at both
levels. -/
theorem claim_C8_witness :
    ((⟨some (("int x;").data), some (("RuBy").data), none⟩ : TransRequest).target_language =
        some (("RuBy").data) ∧
      validLanguages.contains (pyLower (("RuBy").data)) = false) ∧
    (translateCode (fun _ t => t) (some ⟨some (("int x;").data), some (("RuBy").data), none⟩) =
      .error ⟨("Validation failed").data,
        some (joinSep (("; ").data)
          (validateTranslationRequest (some ⟨some (("int x;").data), some (("RuBy").data), none⟩))),
        400⟩ ∧
    modelTranslate true true (("g").data) (("int x;").data) (("RuBy").data) =
      .error ((("Unsupported target language: ").data) ++ pyLower (("RuBy").data))) :=
  ⟨⟨rfl, by decide⟩,
    claim_C8 (fun _ t => t) ⟨some (("int x;").data), some (("RuBy").data), none⟩
      (("RuBy").data) true (("g").data) (("int x;").data) rfl (by decide)⟩

/-- C10: `BaseTranslationModel.set_confidence` stores
`max(0.0, min(1.0, c))`, which equals `min(1.0, max(0.0, c))`, so
`last_confidence` — initialised to 0.0 and written only by `set_confidence` —
stays within [0, 1] after every sequence of model operations. -/
theorem claim_C10 (c : ℚ) (ops : List ℚ) :
    setConfidence c = min 1 (max 0 c) ∧
    (0 ≤ setConfidence c ∧ setConfidence c ≤ 1) ∧
    (0 ≤ runConfidence ops ∧ runConfidence ops ≤ 1) := by
  have hset : ∀ x : ℚ, setConfidence x = min 1 (max 0 x) := by
    intro x
    unfold setConfidence
    rcases le_total x 0 with h | h
    · rw [min_eq_right (h.trans zero_le_one), max_eq_left h, min_eq_right zero_le_one]
    · rcases le_total x 1 with h1 | h1
      · rw [min_eq_right h1, max_eq_right h, min_eq_right h1]
      · rw [min_eq_left h1, max_eq_right h, max_eq_right zero_le_one, min_eq_left h1]
  have hbounds : ∀ x : ℚ, 0 ≤ setConfidence x ∧ setConfidence x ≤ 1 := by
    intro x
    unfold setConfidence
    exact ⟨le_max_left 0 _, max_le zero_le_one (min_le_left 1 x)⟩
  refine ⟨hset c, hbounds c, ?_⟩
  unfold runConfidence
  exact foldl_pres (P := fun x : ℚ => 0 ≤ x ∧ x ≤ 1) _
    (fun b a _ => hbounds a) ops 0 (by norm_num)

theorem dropWhile_head_not (p : Char → Bool) :
    ∀ (s : Str) (c : Char) (t : Str), s.dropWhile p = c :: t → p c = false := by
  intro s
  induction s with
  | nil => intro c t h; simp at h
  | cons a u ih =>
    intro c t h
    rw [List.dropWhile_cons] at h
    split at h
    · exact ih c t h
    · injection h with h1 _
      subst h1
      simpa using ‹¬ p a = true›

theorem pyStrip_head_not_ws (s : Str) (c : Char) (t : Str) (h : pyStrip s = c :: t) :
    isPySpace c = false := by
  unfold pyStrip pyRStrip at h
  have hsuf : (pyLStrip s).reverse.dropWhile isPySpace <:+ (pyLStrip s).reverse :=
    List.dropWhile_suffix isPySpace
  have hpre : ((pyLStrip s).reverse.dropWhile isPySpace).reverse <+: pyLStrip s := by
    rcases hsuf with ⟨u, hu⟩
    refine ⟨u.reverse, ?_⟩
    have := congrArg List.reverse hu
    simpa using this
  rw [h] at hpre
  rcases hpre with ⟨u, hu⟩
  unfold pyLStrip at hu
  exact dropWhile_head_not isPySpace s c (t ++ u) hu.symm

theorem pySplitWsGo_ne_nil :
    ∀ (s acc : Str), ((∃ c ∈ s, isPySpace c = false) ∨ acc ≠ []) →
      pySplitWsGo acc s ≠ [] := by
  intro s
  induction s with
  | nil =>
    intro acc h
    rcases h with ⟨c, hc, _⟩ | h
    · simp at hc
    · simp [pySplitWsGo, h, List.isEmpty_iff]
  | cons a t ih =>
    intro acc h
    unfold pySplitWsGo
    by_cases hws : isPySpace a
    · rw [if_pos hws]
      by_cases hacc : acc.isEmpty
      · rw [if_pos hacc]
        apply ih
        left
        rcases h with ⟨c, hc, hcw⟩ | h
        · rcases List.mem_cons.1 hc with hc | hc
          · rw [hc] at hcw
            rw [hws] at hcw
            simp at hcw
          · exact ⟨c, hc, hcw⟩
        · rw [List.isEmpty_iff] at hacc
          exact absurd hacc h
      · rw [if_neg hacc]
        simp
    · rw [if_neg hws]
      apply ih
      right
      simp

theorem pySplitWs_getLast_some (p : Str) (c : Char) (t : Str)
    (h : pyStrip p = c :: t) :
    ∃ w, (pySplitWs (pyStrip p)).getLast? = some w := by
  have hne : pySplitWs (pyStrip p) ≠ [] := by
    unfold pySplitWs
    apply pySplitWsGo_ne_nil
    left
    refine ⟨c, ?_, pyStrip_head_not_ws p c t h⟩
    rw [h]
    exact List.mem_cons_self c t
  rcases hl : (pySplitWs (pyStrip p)).getLast? with - | w
  · rw [List.getLast?_eq_none_iff] at hl
    exact absurd hl hne
  · exact ⟨w, rfl⟩

theorem foldlM_except_ok {σ α : Type _} (f : σ → α → Except Str σ)
    (hf : ∀ s a, (f s a).isOk = true) :
    ∀ (l : List α) (s : σ), ((l.foldlM f s)).isOk = true := by
  intro l
  induction l with
  | nil => intro s; rfl
  | cons a t ih =>
    intro s
    rw [List.foldlM_cons]
    rcases hfa : f s a with e | s'
    · have h2 := hf s a
      rw [hfa] at h2
      exact absurd h2 (by simp [Except.isOk, Except.toBool])
    · exact ih s'

theorem extractParams_ok (line : Str) : (extractParams line).isOk = true := by
  unfold extractParams
  split
  · rfl
  · apply foldlM_except_ok
    intro acc param0
    dsimp only
    rcases hp : pyStrip param0 with - | ⟨c, t⟩
    · rfl
    · rw [if_neg (by simp)]
      rcases pySplitWs_getLast_some param0 c t hp with ⟨w, hw⟩
      rw [hp] at hw
      rw [hw]
      rfl

theorem isOk_bind_pure {σ τ : Type _} (m : Except Str σ) (g : σ → Except Str τ)
    (hm : m.isOk = true) (hg : ∀ x, (g x).isOk = true) : (m >>= g).isOk = true := by
  rcases m with e | x
  · exact absurd hm (by simp [Except.isOk, Except.toBool])
  · exact hg x

theorem cppScanStep_ok (lang : Str) (st : CppScanState) (il : Nat × Str) :
    (cppScanStep lang st il).isOk = true := by
  simp only [cppScanStep]
  split
  · rfl
  · rcases funcSearch (pyStrip il.2) with - | ⟨g1, fname⟩
    · rfl
    · dsimp only
      repeat' split
      all_goals first
      | rfl
      | exact isOk_bind_pure _ _ (extractParams_ok _) (fun x => rfl)

theorem parseCppJavaLike_ok (code lang : Str) : (parseCppJavaLike code lang).isOk = true := by
  simp only [parseCppJavaLike]
  apply isOk_bind_pure
  · exact foldlM_except_ok _ (cppScanStep_ok lang) _ _
  · intro x
    rfl

theorem parseGeneric_ok (code lang : Str) : (parseGeneric code lang).isOk = true := by
  simp only [parseGeneric]
  split
  · apply isOk_bind_pure
    · exact parseCppJavaLike_ok _ _
    · intro x
      rfl
  · split
    · rfl
    · rfl

theorem parseGeneric_unknown (code lang : Str) (h1 : lang ≠ ("cpp").data)
    (h2 : lang ≠ ("java").data) (h3 : lang ≠ ("javascript").data) :
    warningsOfAst (parseGeneric code lang) =
      [("Using simplified parser - results may be limited").data] := by
  simp only [parseGeneric]
  rw [if_neg (by simp [h1, h2]), if_neg (by simp [h3])]
  rfl

/-- C5: for every input string and language tag, `ASTProcessor.parse_code`
never raises (with the external `ast.parse` modelled by the spec collaborator
contract `parse(text) -> tree | syntax_error`): it always returns a
structural model, and when recovery is partial — the exact python parse
failed and the scan fell back to the simplified parser, or the language is
unknown to every scanner — the returned model carries a non-empty warnings
list. -/
theorem claim_C5 (code lang : Str) (oracle : AstOracle) :
    (parseCode code lang oracle).isOk = true ∧
    (lang = ("python").data → oracle code = none →
      warningsOfAst (parseCode code lang oracle) ≠ []) ∧
    (lang ∉ [("python").data, ("cpp").data, ("java").data, ("javascript").data] →
      warningsOfAst (parseCode code lang oracle) ≠ []) := by
  refine ⟨?_, ?_, ?_⟩
  · unfold parseCode
    split
    · rcases oracle code with - | w
      · exact parseGeneric_ok _ _
      · rfl
    · exact parseGeneric_ok _ _
  · intro hlang horacle
    unfold parseCode
    rw [if_pos hlang, horacle]
    rw [parseGeneric_unknown code (("python").data) (by decide) (by decide) (by decide)]
    simp
  · intro hlang
    simp only [List.mem_cons, List.mem_singleton] at hlang
    push_neg at hlang
    unfold parseCode
    rw [if_neg hlang.1]
    rw [parseGeneric_unknown code lang hlang.2.1 hlang.2.2.1 (by simpa using hlang.2.2.2)]
    simp

/-- C5 (witness): concrete instances — a syntactically broken python input
with a failing parse oracle degrades to the simplified parser with a warning,
and an unknown language tag always carries the simplified-parser warning. -/
theorem claim_C5_witness :
    ((parseCode (("x(").data) (("python").data) (fun _ => none)).isOk = true ∧
      warningsOfAst (parseCode (("x(").data) (("python").data) (fun _ => none)) ≠ []) ∧
    warningsOfAst (parseCode (("\x7b\x7b garbage").data) (("ruby").data) (fun _ => none)) ≠ [] :=
  ⟨⟨(claim_C5 (("x(").data) (("python").data) (fun _ => none)).1,
    (claim_C5 (("x(").data) (("python").data) (fun _ => none)).2.1 rfl rfl⟩,
   (claim_C5 (("\x7b\x7b garbage").data) (("ruby").data) (fun _ => none)).2.2 (by decide)⟩

theorem getLast?_cons_ne (c : Char) (t : Str) (h : t ≠ []) :
    (c :: t).getLast? = t.getLast? := by
  rcases t with - | ⟨x, u⟩
  · exact absurd rfl h
  · exact List.getLast?_cons_cons

theorem getLast?_append_ne (r l : Str) (h : l ≠ []) : (r ++ l).getLast? = l.getLast? := by
  induction r with
  | nil => rfl
  | cons c u ih =>
    rw [List.cons_append,
      getLast?_cons_ne c _ (by intro he; exact h (List.append_eq_nil.1 he).2), ih]

theorem getLast?_drop_ne (l : Str) :
    ∀ (n : Nat), l.drop n ≠ [] → (l.drop n).getLast? = l.getLast? := by
  induction l with
  | nil => intro n h; simp at h
  | cons c t ih =>
    intro n h
    rcases n with - | n
    · rfl
    · rw [List.drop_succ_cons] at h ⊢
      have ht : t ≠ [] := by
        intro he
        rw [he] at h
        simp at h
      rw [ih n h, getLast?_cons_ne c t ht]

theorem last2_small {s : Str} (h : s.length ≤ 1) : last2 s ≠ ('\n' :: '\n' :: []) := by
  intro he
  have hl := congrArg List.length he
  simp [last2] at hl
  omega

theorem last2_cons {c : Char} {t : Str} (h : 2 ≤ t.length) : last2 (c :: t) = last2 t := by
  show ((c :: t).reverse).take 2 = t.reverse.take 2
  rw [List.reverse_cons]
  exact List.take_append_of_le_length (by simpa using h)

theorem last2_append {r u : Str} (h : 2 ≤ u.length) : last2 (r ++ u) = last2 u := by
  show ((r ++ u).reverse).take 2 = u.reverse.take 2
  rw [List.reverse_append]
  exact List.take_append_of_le_length (by simpa using h)

theorem last2_concat (r : Str) (x : Char) : last2 (r ++ [x]) = x :: r.reverse.take 1 := by
  show ((r ++ [x]).reverse).take 2 = _
  rw [List.reverse_append]
  rfl

theorem take1_ne_nl {r : Str} (h : r.getLast? ≠ some '\n') : r.reverse.take 1 ≠ ['\n'] := by
  intro he
  apply h
  rw [← List.head?_reverse r]
  rcases hr : r.reverse with - | ⟨c, u⟩
  · rw [hr] at he
    simp at he
  · rw [hr] at he
    simp at he
    simp [he]

theorem last2_dd_getLast {l : Str} (h : last2 l = ('\n' :: '\n' :: [])) :
    l.getLast? = some '\n' := by
  rw [← List.head?_reverse l]
  simp only [last2] at h
  rcases hr : l.reverse with - | ⟨c, u⟩
  · rw [hr] at h
    simp at h
  · rw [hr] at h
    rw [List.take_succ_cons] at h
    injection h with h1 _
    simp [h1]

theorem last2_drop_ne {l : Str} :
    ∀ (n : Nat), last2 l ≠ ('\n' :: '\n' :: []) → last2 (l.drop n) ≠ ('\n' :: '\n' :: []) := by
  induction l with
  | nil => intro n h; simpa using h
  | cons c t ih =>
    intro n h
    rcases n with - | n
    · simpa using h
    · rw [List.drop_succ_cons]
      apply ih
      rcases Nat.lt_or_ge t.length 2 with hl | hl
      · exact last2_small (by omega)
      · rw [← last2_cons hl]
        exact h

theorem takeWhile_getLast_prop {p : Char → Bool} :
    ∀ (l : Str) (a : Char), (l.takeWhile p).getLast? = some a → p a = true := by
  intro l
  induction l with
  | nil => intro a h; simp at h
  | cons c t ih =>
    intro a h
    rw [List.takeWhile_cons] at h
    split at h
    · rcases ht : t.takeWhile p with - | ⟨x, u⟩
      · rw [ht] at h
        simp at h
        rw [← h]
        exact ‹p c = true›
      · rw [ht] at h
        rw [getLast?_cons_ne c _ (by simp)] at h
        rw [← ht] at h
        exact ih a h
    · simp at h

theorem drop_takeWhile_length (p : Char → Bool) :
    ∀ (t : Str), t.drop (t.takeWhile p).length = t.dropWhile p := by
  intro t
  induction t with
  | nil => rfl
  | cons c u ih =>
    rw [List.takeWhile_cons, List.dropWhile_cons]
    rcases hp : p c with - | -
    · simp [hp]
    · simp [hp, ih]

theorem applySubGo_nil (m : Str → Option (Str × Nat)) (fuel : Nat) :
    applySubGo m fuel [] = [] := by
  rcases fuel with - | fuel
  · rfl
  · rfl

theorem applySubGo_ne_nil {m : Str → Option (Str × Nat)}
    (hm : ∀ s r k, m s = some (r, k) → r ≠ []) (fuel : Nat) (s : Str)
    (hs : s ≠ []) (hf : 1 ≤ fuel) : applySubGo m fuel s ≠ [] := by
  rcases fuel with - | fuel
  · omega
  · rcases s with - | ⟨c, t⟩
    · exact absurd rfl hs
    · rcases hmc : m (c :: t) with - | ⟨r, k⟩
      · simp only [applySubGo, hmc]
        simp
      · simp only [applySubGo, hmc]
        intro hc
        exact hm _ _ _ hmc (List.append_eq_nil.1 hc).1

theorem applySubGo_len1 {m : Str → Option (Str × Nat)}
    (hm : ∀ s r k, m s = some (r, k) → 2 ≤ r.length) :
    ∀ (fuel : Nat) (s : Str), s.length ≤ fuel → (applySubGo m fuel s).length = 1 →
      applySubGo m fuel s = s := by
  intro fuel
  induction fuel with
  | zero =>
    intro s hle _
    rw [List.length_eq_zero.1 (Nat.le_zero.1 hle)]
    rfl
  | succ fuel ih =>
    intro s hle h
    rcases s with - | ⟨c, t⟩
    · rfl
    · rcases hmc : m (c :: t) with - | ⟨r, k⟩
      · simp only [applySubGo, hmc] at h ⊢
        have h0 : applySubGo m fuel t = [] := by
          rw [List.length_cons] at h
          exact List.length_eq_zero.1 (by omega)
        rcases ht : t with - | ⟨x, u⟩
        · rw [applySubGo_nil]
        · exfalso
          rw [ht] at h0
          have hf1 : 1 ≤ fuel := by
            rw [ht] at hle
            simp only [List.length_cons] at hle
            omega
          exact applySubGo_ne_nil
            (fun s r k hsk => by
              have := hm s r k hsk
              intro he
              rw [he] at this
              simp at this)
            fuel (x :: u) (by simp) hf1 h0
      · exfalso
        simp only [applySubGo, hmc, List.length_append] at h
        have := hm _ _ _ hmc
        omega

theorem applySubGo_okEnd {m : Str → Option (Str × Nat)} (hm : replOk m) :
    ∀ (fuel : Nat) (s : Str), s.length ≤ fuel → s ≠ [] → s.getLast? ≠ some '\n' →
      applySubGo m fuel s ≠ [] ∧ (applySubGo m fuel s).getLast? ≠ some '\n' := by
  intro fuel
  induction fuel with
  | zero =>
    intro s hle hs _
    exact absurd (List.length_eq_zero.1 (Nat.le_zero.1 hle)) hs
  | succ fuel ih =>
    intro s hle hs hlast
    rcases s with - | ⟨c, t⟩
    · exact absurd rfl hs
    · rcases hmc : m (c :: t) with - | ⟨r, k⟩
      · simp only [applySubGo, hmc]
        rcases ht : t with - | ⟨x, u⟩
        · rw [applySubGo_nil]
          refine ⟨by simp, ?_⟩
          rw [ht] at hlast
          exact hlast
        · have htne : (x :: u : Str) ≠ [] := by simp
          have hlt : (x :: u : Str).getLast? ≠ some '\n' := by
            rw [← getLast?_cons_ne c _ htne, ← ht]
            exact hlast
          have hlen : (x :: u : Str).length ≤ fuel := by
            rw [ht] at hle
            simp only [List.length_cons] at hle ⊢
            omega
          obtain ⟨h1, h2⟩ := ih (x :: u) hlen htne hlt
          exact ⟨by simp, by rw [getLast?_cons_ne c _ h1]; exact h2⟩
      · simp only [applySubGo, hmc]
        obtain ⟨hrlen, hrlast⟩ := hm _ _ _ hmc
        have hrne : r ≠ [] := by
          intro he
          rw [he] at hrlen
          simp at hrlen
        rcases hrest : (c :: t).drop (k + 1) with - | ⟨x, u⟩
        · rw [applySubGo_nil, List.append_nil]
          exact ⟨hrne, hrlast⟩
        · have hne2 : (x :: u : Str) ≠ [] := by simp
          have hlast2 : (x :: u : Str).getLast? ≠ some '\n' := by
            have hgl := getLast?_drop_ne (c :: t) (k + 1) (by rw [hrest]; simp)
            rw [hrest] at hgl
            rw [hgl]
            exact hlast
          have hlen2 : (x :: u : Str).length ≤ fuel := by
            have hd := congrArg List.length hrest
            rw [List.length_drop] at hd
            simp only [List.length_cons] at hd hle ⊢
            omega
          obtain ⟨h1, h2⟩ := ih (x :: u) hlen2 hne2 hlast2
          refine ⟨by simp [h1], ?_⟩
          rw [getLast?_append_ne _ _ h1]
          exact h2

theorem applySubGo_noDD {m : Str → Option (Str × Nat)} (hm : replOk m) :
    ∀ (fuel : Nat) (s : Str), s.length ≤ fuel → last2 s ≠ ('\n' :: '\n' :: []) →
      last2 (applySubGo m fuel s) ≠ ('\n' :: '\n' :: []) := by
  intro fuel
  induction fuel with
  | zero =>
    intro s _ _
    simp [applySubGo, last2]
  | succ fuel ih =>
    intro s hle hdd
    rcases s with - | ⟨c, t⟩
    · simp [applySubGo, last2]
    · rcases hmc : m (c :: t) with - | ⟨r, k⟩
      · simp only [applySubGo, hmc]
        rcases ht : t with - | ⟨x, u⟩
        · rw [applySubGo_nil]
          exact last2_small (by simp)
        · have hlen : (x :: u : Str).length ≤ fuel := by
            rw [ht] at hle
            simp only [List.length_cons] at hle ⊢
            omega
          have hddt : last2 (x :: u) ≠ ('\n' :: '\n' :: []) := by
            rcases Nat.lt_or_ge (x :: u : Str).length 2 with hl | hl
            · exact last2_small (by simp only [List.length_cons] at hl ⊢; omega)
            · rw [← last2_cons hl, ← ht]
              exact hdd
          have hout := ih (x :: u) hlen hddt
          rcases Nat.lt_or_ge (applySubGo m fuel (x :: u)).length 2 with hl | hl
          · rcases ho1 : (applySubGo m fuel (x :: u)).length with - | n
            · rw [List.length_eq_zero.1 ho1]
              exact last2_small (by simp)
            · have hn : n = 0 := by omega
              subst hn
              have heq := applySubGo_len1 (fun s r k hh => (hm s r k hh).1) fuel (x :: u)
                hlen ho1
              rw [heq] at ho1 ⊢
              have hu : u = [] := by simpa using ho1
              subst hu
              rw [ht] at hdd
              exact hdd
          · rw [last2_cons hl]
            exact hout
      · simp only [applySubGo, hmc]
        obtain ⟨hrlen, hrlast⟩ := hm _ _ _ hmc
        rcases hrest : (c :: t).drop (k + 1) with - | ⟨x, u⟩
        · rw [applySubGo_nil, List.append_nil]
          intro he
          exact hrlast (last2_dd_getLast he)
        · have hlen2 : (x :: u : Str).length ≤ fuel := by
            have hd := congrArg List.length hrest
            rw [List.length_drop] at hd
            simp only [List.length_cons] at hd hle ⊢
            omega
          have hdd2 : last2 (x :: u) ≠ ('\n' :: '\n' :: []) := by
            have hs := last2_drop_ne (k + 1) hdd
            rw [hrest] at hs
            exact hs
          have hout := ih (x :: u) hlen2 hdd2
          rcases Nat.lt_or_ge (applySubGo m fuel (x :: u)).length 2 with hl | hl
          · rcases ho1 : (applySubGo m fuel (x :: u)).length with - | n
            · rw [List.length_eq_zero.1 ho1, List.append_nil]
              intro he
              exact hrlast (last2_dd_getLast he)
            · have hn : n = 0 := by omega
              subst hn
              have heq := applySubGo_len1 (fun s r k hh => (hm s r k hh).1) fuel (x :: u)
                hlen2 ho1
              rw [heq] at ho1 ⊢
              have hu : u = [] := by simpa using ho1
              subst hu
              rw [last2_concat]
              intro he
              injection he with h1 h2
              exact take1_ne_nl hrlast h2
          · rw [last2_append hl]
            exact hout

theorem applySubGo_okEnd_noDD {m : Str → Option (Str × Nat)} (hm : replOkNL m) :
    ∀ (fuel : Nat) (s : Str), s.length ≤ fuel → s.getLast? ≠ some '\n' →
      last2 (applySubGo m fuel s) ≠ ('\n' :: '\n' :: []) := by
  intro fuel
  induction fuel with
  | zero =>
    intro s _ _
    simp [applySubGo, last2]
  | succ fuel ih =>
    intro s hle hlast
    rcases s with - | ⟨c, t⟩
    · simp [applySubGo, last2]
    · rcases hmc : m (c :: t) with - | ⟨r, k⟩
      · simp only [applySubGo, hmc]
        rcases ht : t with - | ⟨x, u⟩
        · rw [applySubGo_nil]
          exact last2_small (by simp)
        · have hlen : (x :: u : Str).length ≤ fuel := by
            rw [ht] at hle
            simp only [List.length_cons] at hle ⊢
            omega
          have hlt : (x :: u : Str).getLast? ≠ some '\n' := by
            rw [← getLast?_cons_ne c _ (by simp), ← ht]
            exact hlast
          have hout := ih (x :: u) hlen hlt
          rcases Nat.lt_or_ge (applySubGo m fuel (x :: u)).length 2 with hl | hl
          · rcases ho1 : (applySubGo m fuel (x :: u)).length with - | n
            · rw [List.length_eq_zero.1 ho1]
              exact last2_small (by simp)
            · have hn : n = 0 := by omega
              subst hn
              have heq := applySubGo_len1 (fun s r k hh => (hm s r k hh).1) fuel (x :: u)
                hlen ho1
              rw [heq] at ho1 ⊢
              have hu : u = [] := by simpa using ho1
              subst hu
              intro he
              apply hlt
              have hx : x = '\n' := by
                have h2 := he
                simp [last2] at h2
                exact h2.1
              simp [hx]
          · rw [last2_cons hl]
            exact hout
      · simp only [applySubGo, hmc]
        obtain ⟨hrlen, hrdd⟩ := hm _ _ _ hmc
        rcases hrest : (c :: t).drop (k + 1) with - | ⟨x, u⟩
        · rw [applySubGo_nil, List.append_nil]
          exact hrdd
        · have hlen2 : (x :: u : Str).length ≤ fuel := by
            have hd := congrArg List.length hrest
            rw [List.length_drop] at hd
            simp only [List.length_cons] at hd hle ⊢
            omega
          have hlt2 : (x :: u : Str).getLast? ≠ some '\n' := by
            have hgl := getLast?_drop_ne (c :: t) (k + 1) (by rw [hrest]; simp)
            rw [hrest] at hgl
            rw [hgl]
            exact hlast
          have hout := ih (x :: u) hlen2 hlt2
          rcases Nat.lt_or_ge (applySubGo m fuel (x :: u)).length 2 with hl | hl
          · rcases ho1 : (applySubGo m fuel (x :: u)).length with - | n
            · rw [List.length_eq_zero.1 ho1, List.append_nil]
              exact hrdd
            · have hn : n = 0 := by omega
              subst hn
              have heq := applySubGo_len1 (fun s r k hh => (hm s r k hh).1) fuel (x :: u)
                hlen2 ho1
              rw [heq] at ho1 ⊢
              have hu : u = [] := by simpa using ho1
              subst hu
              rw [last2_concat]
              intro he
              apply hlt2
              have hx : x = '\n' := by injection he
              simp [hx]
          · rw [last2_append hl]
            exact hout

theorem applySub_okEnd {m : Str → Option (Str × Nat)} (hm : replOk m) {s : Str}
    (hs : s ≠ []) (hl : s.getLast? ≠ some '\n') :
    applySub m s ≠ [] ∧ (applySub m s).getLast? ≠ some '\n' :=
  applySubGo_okEnd hm s.length s le_rfl hs hl

theorem applySub_noDD {m : Str → Option (Str × Nat)} (hm : replOk m) {s : Str}
    (hdd : last2 s ≠ ('\n' :: '\n' :: [])) :
    last2 (applySub m s) ≠ ('\n' :: '\n' :: []) :=
  applySubGo_noDD hm s.length s le_rfl hdd

theorem applySub_okEnd_noDD {m : Str → Option (Str × Nat)} (hm : replOkNL m) {s : Str}
    (hl : s.getLast? ≠ some '\n') :
    last2 (applySub m s) ≠ ('\n' :: '\n' :: []) :=
  applySubGo_okEnd_noDD hm s.length s le_rfl hl

theorem pyStrip_getLast_ne_nl (s : Str) : (pyStrip s).getLast? ≠ some '\n' := by
  intro h
  rw [pyStrip, pyRStrip, List.getLast?_reverse] at h
  rcases hd : (pyLStrip s).reverse.dropWhile isPySpace with - | ⟨c, u⟩
  · rw [hd] at h
    simp at h
  · rw [hd] at h
    simp at h
    have := dropWhile_head_not isPySpace _ c u hd
    rw [h] at this
    simp [isPySpace] at this

theorem pyEndsWith_nl (code : Str) :
    pyEndsWith code (("\n").data) = true ↔ code.getLast? = some '\n' := by
  rw [← List.head?_reverse code]
  simp only [pyEndsWith]
  have hrev : ((("\n").data : Str)).reverse = ['\n'] := rfl
  rw [hrev]
  rcases code.reverse with - | ⟨c, u⟩
  · simp [startsWith]
  · simp [startsWith]

theorem commentM_good : replOk commentM := by
  intro s r k h
  simp only [commentM] at h
  split at h
  · rw [Option.some_inj] at h
    have h1 : (if keywordComment ('/' :: '/' :: (s.drop 2).takeWhile (fun c => c ≠ '\n')) then
        '/' :: '/' :: (s.drop 2).takeWhile (fun c => c ≠ '\n')
      else (" /* comment */ ").data) = r := congrArg Prod.fst h
    rw [← h1]
    split
    · refine ⟨by simp [List.length_cons], ?_⟩
      intro hcon
      rcases ht : (s.drop 2).takeWhile (fun c => c ≠ '\n') with - | ⟨x, u⟩
      · rw [ht] at hcon
        simp at hcon
      · rw [ht, List.getLast?_cons_cons, List.getLast?_cons_cons] at hcon
        have hp := takeWhile_getLast_prop (s.drop 2) '\n' (by rw [ht]; exact hcon)
        simp at hp
    · exact ⟨by decide, by decide⟩
  · split at h
    · rcases hsi : subIdx (s.drop 2) (("*/").data) with - | i
      · rw [hsi] at h
        simp at h
      · rw [hsi] at h
        rw [Option.some_inj] at h
        have h1 : (if keywordComment ('/' :: '*' :: ((s.drop 2).take i ++ ('*' :: '/' :: []))) then
            '/' :: '*' :: ((s.drop 2).take i ++ ('*' :: '/' :: []))
          else (" /* comment */ ").data) = r := congrArg Prod.fst h
        rw [← h1]
        split
        · refine ⟨by simp [List.length_cons], ?_⟩
          intro hcon
          rw [getLast?_cons_ne _ _ (by simp), getLast?_cons_ne _ _ (by simp),
            getLast?_append_ne _ _ (by simp)] at hcon
          simp at hcon
        · exact ⟨by decide, by decide⟩
    · exact absurd h (by simp)

theorem quoteM_good (q : Char) : replOk (quoteM q) := by
  intro s r k h
  rcases s with - | ⟨c, t⟩
  · simp [quoteM] at h
  · simp only [quoteM] at h
    split at h
    · rcases hb : quoteBody q t with - | b
      · rw [hb] at h
        simp at h
      · rw [hb] at h
        rw [Option.some_inj] at h
        have h1 : (("<STRING>").data : Str) = r := congrArg Prod.fst h
        rw [← h1]
        exact ⟨by decide, by decide⟩
    · exact absurd h (by simp)

theorem fendM_good : replOkNL fendM := by
  intro s r k h
  rcases s with - | ⟨c, t⟩
  · simp [fendM] at h
  · simp only [fendM] at h
    split at h
    · split at h
      · rw [Option.some_inj] at h
        have h1 : (("\x7d\n// FUNCTION_END\n").data : Str) = r := congrArg Prod.fst h
        rw [← h1]
        exact ⟨by decide, by decide⟩
      · exact absurd h (by simp)
    · exact absurd h (by simp)

theorem replPair_last {A X : Str} {d : Char} {n k : Nat} {r : Str}
    (hA : 1 ≤ A.length) (hd : d ≠ '\n')
    (h : (some (A ++ (X ++ [d]), n) : Option (Str × Nat)) = some (r, k)) :
    2 ≤ r.length ∧ r.getLast? ≠ some '\n' := by
  have h1 : A ++ (X ++ [d]) = r := congrArg Prod.fst (Option.some_inj.1 h)
  rw [← h1]
  refine ⟨?_, ?_⟩
  · simp only [List.length_append, List.length_cons, List.length_nil]
    omega
  · intro hcon
    rw [getLast?_append_ne _ _ (by simp), getLast?_append_ne _ _ (by simp)] at hcon
    simp at hcon
    exact hd hcon

theorem fstartM_good : replOk fstartM := by
  intro s r k h
  simp only [fstartM] at h
  repeat' split at h
  all_goals try exact Option.noConfusion h
  exact replPair_last (by decide) (by decide) h

theorem kwBraceM_good (kw marker : Str) (hm : 1 ≤ marker.length) :
    replOk (kwBraceM kw marker) := by
  intro s r k h
  simp only [kwBraceM] at h
  repeat' split at h
  all_goals try exact Option.noConfusion h
  exact replPair_last hm (by decide) h

theorem includeM_good : replOk includeM := by
  intro s r k h
  simp only [includeM] at h
  repeat' split at h
  all_goals try exact Option.noConfusion h
  rename_i d tail hd
  have hp := dropWhile_head_not (fun x => x ≠ '>' && x ≠ '"') _ d tail
    (by rw [← drop_takeWhile_length]; exact hd)
  have hdn : d ≠ '\n' := by
    intro he
    rw [he] at hp
    exact absurd hp (by decide)
  exact replPair_last (by decide) hdn h

theorem endsOneNL_of_noDD {code : Str} (hdd : last2 code ≠ ('\n' :: '\n' :: [])) :
    endsOneNL (if pyEndsWith code (("\n").data) = true then code
      else code ++ ("\n").data) := by
  rcases hpe : pyEndsWith code (("\n").data) with - | -
  · rw [if_neg Bool.false_ne_true]
    have hr : ((("\n").data : Str)) = ['\n'] := rfl
    constructor
    · rw [hr, getLast?_append_ne _ _ (by simp)]
      rfl
    · have hlast : code.getLast? ≠ some '\n' := by
        intro hc
        rw [(pyEndsWith_nl code).2 hc] at hpe
        exact Bool.noConfusion hpe
      rw [hr]
      intro he
      rw [show ((code ++ ['\n']).reverse.take 2) = last2 (code ++ ['\n']) from rfl,
        last2_concat code '\n'] at he
      injection he with h1 h2
      exact take1_ne_nl hlast h2
  · rw [if_pos rfl]
    exact ⟨(pyEndsWith_nl code).1 hpe, hdd⟩

/-- C9 (amended): `CodeTokenizer.preprocess` is a pure deterministic function
of its input, and whenever the early guard does not fire — the input is
neither empty nor whitespace-only — the output ends with exactly one trailing
newline.  (On empty or whitespace-only input the function returns the empty
string instead.) -/
theorem claim_C9_amended (s : Str)
    (h : (s.isEmpty || (pyStrip s).isEmpty) = false) :
    endsOneNL (preprocess s) := by
  simp only [preprocess]
  rw [if_neg (by rw [h]; exact Bool.false_ne_true)]
  simp only [processComments, normalizeStrings, addStructuralMarkers]
  have hb : (normalizeWhitespace (normalizeLineEndings s)).getLast? ≠ some '\n' := by
    simp only [normalizeWhitespace]
    exact pyStrip_getLast_ne_nl _
  by_cases hbe : normalizeWhitespace (normalizeLineEndings s) = []
  · rw [hbe]
    decide
  · have h1 := applySub_okEnd commentM_good hbe hb
    have h2 := applySub_okEnd (quoteM_good '"') h1.1 h1.2
    have h3 := applySub_okEnd (quoteM_good '\'') h2.1 h2.2
    have h4 := applySub_okEnd fstartM_good h3.1 h3.2
    have h5 := applySub_okEnd_noDD fendM_good h4.2
    have h6 := applySub_noDD
      (kwBraceM_good (("class").data) (("\n// CLASS_START\n").data) (by decide)) h5
    have h7 := applySub_noDD
      (kwBraceM_good (("struct").data) (("\n// STRUCT_START\n").data) (by decide)) h6
    have h8 := applySub_noDD includeM_good h7
    exact endsOneNL_of_noDD h8

/-- C9 (counterexample): on the empty input the early guard of `preprocess`
returns the empty string, which does not end with a trailing newline — the
claimed property fails for this input. -/
theorem claim_C9_counterexample :
    preprocess [] = [] ∧ ¬ endsOneNL (preprocess []) := by
  constructor
  · rfl
  · decide

/-- C9 (witness): a concrete non-blank input for which the amended theorem
yields an output with exactly one trailing newline. -/
theorem claim_C9_witness :
    ((("int x;").data).isEmpty || (pyStrip (("int x;").data)).isEmpty) = false ∧
      endsOneNL (preprocess (("int x;").data)) :=
  ⟨by decide, claim_C9_amended (("int x;").data) (by decide)⟩

end MLT
